import Mathlib

/-!
EMS: client-side form validators, registration router, registration ledger.

A shallow embedding of

* `src/frontend/src/pages/Register.jsx` (`validateEmailDomain`, `validateInputs`),
* `src/frontend/src/pages/UpdateProfile.jsx` (`validateEmailDomain`, `validateProfile`),
* `src/backend/routes/registrationRoutes.js` (the four routes of the registration router),

together with the registration ledger and service described in `spec.md`
(their controller is imported by the router; its implementation is not part of the sources).
-/

namespace EMS

/-! ## JavaScript strings and regular expressions -/

/-- A JavaScript string, as its sequence of UTF-16 code units (`s.length` is `List.length`). -/
abbrev JSString := List Nat

/-- The code units of a literal whose characters all lie in the Basic Multilingual Plane. -/
def js (s : String) : JSString := s.toList.map Char.toNat

/-- Regular expressions over code units; a character class is a list of inclusive ranges. -/
inductive Regex where
  | empty : Regex
  | eps : Regex
  | cls (ranges : List (Nat × Nat)) : Regex
  | seq (a b : Regex) : Regex
  | alt (a b : Regex) : Regex
  | star (a : Regex) : Regex

/-- Membership of a code unit in a character class. -/
def inRanges (c : Nat) (ranges : List (Nat × Nat)) : Bool :=
  ranges.any (fun r => decide (r.1 ≤ c) && decide (c ≤ r.2))

namespace Regex

/-- Does the expression accept the empty string? -/
def nullable : Regex → Bool
  | empty => false
  | eps => true
  | cls _ => false
  | seq a b => nullable a && nullable b
  | alt a b => nullable a || nullable b
  | star _ => true

/-- Brzozowski derivative with respect to one code unit. -/
def deriv (c : Nat) : Regex → Regex
  | empty => empty
  | eps => empty
  | cls rs => if inRanges c rs then eps else empty
  | seq a b => if nullable a then alt (seq (deriv c a) b) (deriv c b) else seq (deriv c a) b
  | alt a b => alt (deriv c a) (deriv c b)
  | star a => seq (deriv c a) (star a)

/-- Whole-string matching. -/
def rmatch : Regex → JSString → Bool
  | r, [] => nullable r
  | r, c :: s => rmatch (deriv c r) s

/-- The quantifier `r{lo,hi}`. -/
def rep (r : Regex) : Nat → Nat → Regex
  | 0, 0 => eps
  | 0, hi + 1 => alt eps (seq r (rep r 0 hi))
  | _ + 1, 0 => empty
  | lo + 1, hi + 1 => seq r (rep r lo hi)

/-- The quantifier `r+`. -/
def plus (r : Regex) : Regex := seq r (star r)

/-- The quantifier `r{lo,}`. -/
def atLeast (r : Regex) (lo : Nat) : Regex := seq (rep r lo lo) (star r)

/-- The language of an expression: the strings it matches as a whole. -/
def Lang : Regex → JSString → Prop
  | empty, _ => False
  | eps, s => s = []
  | cls rs, s => ∃ c, s = [c] ∧ inRanges c rs = true
  | seq a b, s => ∃ u v, s = u ++ v ∧ Lang a u ∧ Lang b v
  | alt a b, s => Lang a s ∨ Lang b s
  | star a, s => ∃ parts : List JSString, s = parts.flatten ∧ ∀ p ∈ parts, Lang a p

end Regex

/-- A regular expression literal without flags: whether it opens with `^`, its body,
whether it closes with `$`. -/
structure RegExp where
  anchoredStart : Bool
  body : Regex
  anchoredEnd : Bool

/-- The method `RegExp.prototype.test`: is there a match somewhere in the string (at the start where the
literal opens with `^`, up to the end where it closes with `$`)? -/
def RegExp.test (re : RegExp) (s : JSString) : Bool :=
  (if re.anchoredStart then [s] else s.tails).any fun t =>
    (if re.anchoredEnd then [t] else t.inits).any fun m => Regex.rmatch re.body m

/-! ### Character classes of the source -/

/-- The range `A-Z`. -/
def upperAZ : List (Nat × Nat) := [(65, 90)]

/-- The range `a-z`. -/
def lowerAZ : List (Nat × Nat) := [(97, 122)]

/-- The range `0-9`. -/
def digit09 : List (Nat × Nat) := [(48, 57)]

/-- The class escape `\s`: tab, line feed, vertical tab, form feed, carriage return, space,
no-break space, U+1680, U+2000 to U+200A, U+2028, U+2029, U+202F, U+205F, U+3000, U+FEFF. -/
def whiteSpace : List (Nat × Nat) :=
  [(9, 13), (32, 32), (160, 160), (5760, 5760), (8192, 8202), (8232, 8233), (8239, 8239),
   (8287, 8287), (12288, 12288), (65279, 65279)]

/-- The class `[A-Za-z\s]`. -/
def nameClass : List (Nat × Nat) := upperAZ ++ lowerAZ ++ whiteSpace

/-- The class `[A-Za-z0-9._%+-]`. -/
def emailLocalClass : List (Nat × Nat) :=
  upperAZ ++ lowerAZ ++ digit09 ++ [(46, 46), (95, 95), (37, 37), (43, 43), (45, 45)]

/-- The class `[A-Za-z0-9.-]`. -/
def emailHostClass : List (Nat × Nat) := upperAZ ++ lowerAZ ++ digit09 ++ [(46, 46), (45, 45)]

/-- The class `[A-Za-z]`. -/
def letterClass : List (Nat × Nat) := upperAZ ++ lowerAZ

/-- The class `[@$!%*?&#]`. -/
def specialClass : List (Nat × Nat) :=
  [(64, 64), (36, 36), (33, 33), (37, 37), (42, 42), (63, 63), (38, 38), (35, 35)]

/-! ### Regular expression literals of the source -/

/-- The literal `/^[A-Za-z\s]{3,30}$/` of the NAME check in both pages. -/
def nameRegExp : RegExp := ⟨true, Regex.rep (Regex.cls nameClass) 3 30, true⟩

/-- The literal `/^[A-Za-z0-9._%+-]+@[A-Za-z0-9.-]+\.[A-Za-z]{2,}$/` of the EMAIL BASIC CHECK
in both pages. -/
def emailRegExp : RegExp :=
  ⟨true,
   Regex.seq (Regex.plus (Regex.cls emailLocalClass))
     (Regex.seq (Regex.cls [(64, 64)])
       (Regex.seq (Regex.plus (Regex.cls emailHostClass))
         (Regex.seq (Regex.cls [(46, 46)]) (Regex.atLeast (Regex.cls letterClass) 2)))),
   true⟩

/-- The literal `/^[0-9]{10}$/` of the PHONE check in both pages. -/
def phoneRegExp : RegExp := ⟨true, Regex.rep (Regex.cls digit09) 10 10, true⟩

/-- The literal `/[A-Z]/`. -/
def upperRegExp : RegExp := ⟨false, Regex.cls upperAZ, false⟩

/-- The literal `/[a-z]/`. -/
def lowerRegExp : RegExp := ⟨false, Regex.cls lowerAZ, false⟩

/-- The literal `/[0-9]/`. -/
def digitRegExp : RegExp := ⟨false, Regex.cls digit09, false⟩

/-- The literal `/[@$!%*?&#]/`. -/
def specialRegExp : RegExp := ⟨false, Regex.cls specialClass, false⟩

/-! ### String methods used by the validators -/

/-- The method `String.prototype.split` with a one-unit separator. -/
def split (sep : Nat) : JSString → List JSString
  | [] => [[]]
  | c :: cs =>
    if c = sep then [] :: split sep cs
    else
      match split sep cs with
      | p :: ps => (c :: p) :: ps
      | [] => [[c]]

/-- Lower-casing of one code unit: `A`-`Z` go to `a`-`z`, U+0130 goes to `i` followed by U+0307,
the Kelvin sign U+212A goes to `k`. Every other unit is kept: Unicode sends a unit outside ASCII
only to units outside ASCII, so equality with an ASCII string is not affected. -/
def toLowerCaseUnit (c : Nat) : List Nat :=
  if 65 ≤ c ∧ c ≤ 90 then [c + 32]
  else if c = 304 then [105, 775]
  else if c = 8490 then [107]
  else [c]

/-- The method `String.prototype.toLowerCase`. -/
def toLowerCase : JSString → JSString
  | [] => []
  | c :: cs => toLowerCaseUnit c ++ toLowerCase cs

/-! ## Register.jsx and UpdateProfile.jsx -/

/-- A letter in the sense of the messages: `A`-`Z` or `a`-`z`. -/
def IsLetter (c : Nat) : Prop := (65 ≤ c ∧ c ≤ 90) ∨ (97 ≤ c ∧ c ≤ 122)

instance : DecidablePred IsLetter := fun c => by unfold IsLetter; exact inferInstance

/-- The `allowedDomains` array of `validateEmailDomain` (the same in both pages). -/
def allowedDomains : List JSString :=
  [js "gmail.com", js "yahoo.com", js "outlook.com", js "hotmail.com", js "icloud.com",
   js "protonmail.com", js "live.com"]

/-- The function `validateEmailDomain` (the same function in `Register.jsx` and `UpdateProfile.jsx`). -/
def validateEmailDomain (email : JSString) : Bool :=
  let emailParts := split 64 email
  if emailParts.length ≠ 2 then false
  else
    let domain := toLowerCase (emailParts.getD 1 [])
    decide (domain ∈ allowedDomains)

/-- What a validator did: the value it returned and the messages it passed to `toast.error`. -/
structure Outcome where
  returned : Bool
  toasts : List String
deriving DecidableEq

/-- The function `validateInputs` of `Register.jsx`, as a function of the four state variables it reads. -/
def validateInputs (name email phone password : JSString) : Outcome :=
  if !nameRegExp.test name then ⟨false, ["Name must be 3–30 letters only"]⟩
  else if !emailRegExp.test email then ⟨false, ["Invalid email format."]⟩
  else if !validateEmailDomain email then
    ⟨false, ["Only valid email providers allowed (Gmail, Yahoo, Outlook, Hotmail, iCloud, Live, ProtonMail)."]⟩
  else if !phoneRegExp.test phone then ⟨false, ["Phone number must be exactly 10 digits"]⟩
  else if password.length < 8 then ⟨false, ["Password must contain at least 8 characters."]⟩
  else if !upperRegExp.test password then
    ⟨false, ["Password must contain at least one uppercase letter (A-Z)."]⟩
  else if !lowerRegExp.test password then
    ⟨false, ["Password must contain at least one lowercase letter (a-z)."]⟩
  else if !digitRegExp.test password then
    ⟨false, ["Password must contain at least one number (0-9)."]⟩
  else if !specialRegExp.test password then
    ⟨false, ["Password must contain at least one special character (@$!%*?&#)."]⟩
  else ⟨true, []⟩

/-- The function `validateProfile` of `UpdateProfile.jsx`, as a function of the fields of `form`. -/
def validateProfile (name email phone : JSString) : Outcome :=
  if !nameRegExp.test name then
    ⟨false, ["Name must be 3–30 characters and contain only letters."]⟩
  else if !emailRegExp.test email then ⟨false, ["Invalid email format."]⟩
  else if !validateEmailDomain email then
    ⟨false, ["Only valid email providers allowed (Gmail, Yahoo, Outlook, Hotmail, iCloud, Live, ProtonMail)."]⟩
  else if !phoneRegExp.test phone then ⟨false, ["Phone number must be exactly 10 digits."]⟩
  else ⟨true, []⟩

/-! ## registrationRoutes.js -/

/-- HTTP request methods. -/
inductive Method where
  | GET | HEAD | POST | PUT | DELETE | PATCH | OPTIONS
deriving DecidableEq

/-- The functions the router file installs: the imported middleware and the four imported
controllers. -/
inductive Handler where
  | authMiddleware
  | registerUser
  | getRegistrations
  | getUserRegistrations
  | unregisterEvent
deriving DecidableEq

/-- One segment of a route path: literal text, or a named parameter (`:name`). -/
inductive Segment where
  | literal (text : JSString)
  | param (name : String)
deriving DecidableEq

/-- A route: the method it was registered for (`router.post`, `router.get`, `router.delete`),
its path, and its handlers in the order they were passed. -/
structure Route where
  method : Method
  path : List Segment
  stack : List Handler
deriving DecidableEq

/-- Line 12: `router.post("/", authMiddleware, registerUser)`. -/
def postRoot : Route := ⟨Method.POST, [], [Handler.authMiddleware, Handler.registerUser]⟩

/-- Line 13: `router.get("/", authMiddleware, getRegistrations)`. -/
def getRoot : Route := ⟨Method.GET, [], [Handler.authMiddleware, Handler.getRegistrations]⟩

/-- Line 14: `router.get("/user/:userId", authMiddleware, getUserRegistrations)`. -/
def getUser : Route :=
  ⟨Method.GET, [Segment.literal (js "user"), Segment.param "userId"],
    [Handler.authMiddleware, Handler.getUserRegistrations]⟩

/-- Line 15: `router.delete("/:eventId", authMiddleware, unregisterEvent)`. -/
def deleteEvent : Route :=
  ⟨Method.DELETE, [Segment.param "eventId"], [Handler.authMiddleware, Handler.unregisterEvent]⟩

/-- The router of `registrationRoutes.js`: its four registrations, in source order. -/
def router : List Route := [postRoot, getRoot, getUser, deleteEvent]

/-- A request as the router sees it: its method, and the pathname of its URL below the mount
point of the router, raw (not percent-decoded), such as `/user/42`. -/
structure Request where
  method : Method
  path : JSString
deriving DecidableEq

/-- The values bound to the named parameters of a route (`req.params`). -/
abbrev Params := List (String × JSString)

/-- Express compares literal text without regard to the case of ASCII letters by default. -/
def foldCase (c : Nat) : Nat := if 65 ≤ c ∧ c ≤ 90 then c + 32 else c

/-- The value of a hexadecimal digit. -/
def hexValue (c : Nat) : Option Nat :=
  if 48 ≤ c ∧ c ≤ 57 then some (c - 48)
  else if 65 ≤ c ∧ c ≤ 70 then some (c - 55)
  else if 97 ≤ c ∧ c ≤ 102 then some (c - 87)
  else none

/-- A piece of a percent-encoded string: a code unit standing for itself, or the octet written
by an escape `%XY`. -/
inductive UriToken where
  | unit (c : Nat)
  | octet (o : Nat)
deriving DecidableEq

/-- Reading the escapes of a percent-encoded string; `none` when a `%` is not followed by two
hexadecimal digits. -/
def uriTokens : JSString → Option (List UriToken)
  | [] => some []
  | c :: rest =>
    if c ≠ 37 then (uriTokens rest).map (fun ts => UriToken.unit c :: ts)
    else
      match rest with
      | a :: b :: rest1 =>
        match hexValue a, hexValue b with
        | some x, some y => (uriTokens rest1).map (fun ts => UriToken.octet (16 * x + y) :: ts)
        | _, _ => none
      | _ => none

/-- A continuation octet of UTF-8 (`10xxxxxx`). -/
def isContinuation (o : Nat) : Bool := decide (128 ≤ o) && decide (o < 192)

/-- The UTF-16 code units of a code point. -/
def codeUnitsOf (v : Nat) : List Nat :=
  if v < 65536 then [v] else [55296 + (v - 65536) / 1024, 56320 + (v - 65536) % 1024]

/-- Decoding the escaped octets as UTF-8; `none` when they are not the UTF-8 encoding of code
points (a stray or missing continuation octet, an overlong form, a surrogate, a value above
U+10FFFF). -/
def utf8Units : List UriToken → Option JSString
  | [] => some []
  | UriToken.unit c :: ts => (utf8Units ts).map (fun s => c :: s)
  | UriToken.octet o :: ts =>
    if o < 128 then (utf8Units ts).map (fun s => o :: s)
    else if o < 192 then none
    else if o < 224 then
      match ts with
      | UriToken.octet o1 :: ts1 =>
        let v := (o - 192) * 64 + (o1 - 128)
        if isContinuation o1 && decide (128 ≤ v) then (utf8Units ts1).map (fun s => v :: s)
        else none
      | _ => none
    else if o < 240 then
      match ts with
      | UriToken.octet o1 :: UriToken.octet o2 :: ts2 =>
        let v := (o - 224) * 4096 + (o1 - 128) * 64 + (o2 - 128)
        if isContinuation o1 && isContinuation o2 && decide (2048 ≤ v) &&
            !(decide (55296 ≤ v) && decide (v ≤ 57343)) then
          (utf8Units ts2).map (fun s => v :: s)
        else none
      | _ => none
    else if o < 248 then
      match ts with
      | UriToken.octet o1 :: UriToken.octet o2 :: UriToken.octet o3 :: ts3 =>
        let v := (o - 240) * 262144 + (o1 - 128) * 4096 + (o2 - 128) * 64 + (o3 - 128)
        if isContinuation o1 && isContinuation o2 && isContinuation o3 && decide (65536 ≤ v) &&
            decide (v ≤ 1114111) then
          (utf8Units ts3).map (fun s => codeUnitsOf v ++ s)
        else none
      | _ => none
    else none

/-- The function `decodeURIComponent`, which Express applies to every bound parameter; `none`
stands for the `URIError` it throws on a malformed escape. -/
def decodeURIComponent (s : JSString) : Option JSString :=
  match uriTokens s with
  | some ts => utf8Units ts
  | none => none

/-- Dropping one empty piece at the end: Express routing is not strict by default, so one
trailing `/` is optional. -/
def dropTrailingEmpty : List JSString → List JSString
  | [] => []
  | [s] => if s = [] then [] else [s]
  | s :: t => s :: dropTrailingEmpty t

/-- The raw segments of a pathname: the pieces between its `/`, after the leading `/` and
without one trailing `/`; `none` for a non-empty pathname that does not start with `/`, which
no route matches. -/
def pathSegments (pathname : JSString) : Option (List JSString) :=
  match split 47 pathname with
  | [] :: rest => some (dropTrailingEmpty rest)
  | _ => none

/-- The outcome of matching a route path against a pathname: no match, a match one of whose
parameters does not decode (Express answers 400 and calls no handler), or a match with its
decoded parameters. -/
inductive PathMatch where
  | noMatch
  | malformed
  | bound (params : Params)
deriving DecidableEq

/-- Matching of a route path against the raw segments of a pathname. Literal text is compared
with the raw segment; a parameter takes one non-empty raw segment and is bound to its decoded
value; the parameters are decoded only once the whole path has matched. -/
def matchPath : List Segment → List JSString → PathMatch
  | [], [] => PathMatch.bound []
  | Segment.literal text :: ps, s :: ss =>
    if s.map foldCase = text.map foldCase then matchPath ps ss else PathMatch.noMatch
  | Segment.param name :: ps, s :: ss =>
    if s = [] then PathMatch.noMatch
    else
      match matchPath ps ss with
      | PathMatch.noMatch => PathMatch.noMatch
      | PathMatch.malformed => PathMatch.malformed
      | PathMatch.bound rest =>
        match decodeURIComponent s with
        | some value => PathMatch.bound ((name, value) :: rest)
        | none => PathMatch.malformed
  | _, _ => PathMatch.noMatch

/-- A route answers the method it was registered for; a route registered for GET also answers
HEAD when, as here, it has no handler for HEAD of its own. -/
def handlesMethod (r : Route) (m : Method) : Bool :=
  decide (m = r.method) || (decide (m = Method.HEAD) && decide (r.method = Method.GET))

/-- The routes of a list that serve a request, in registration order, each with its bound
parameters. The path is matched before the method is looked at, and once a parameter has
failed to decode no later route is served. -/
def servingRoutes (m : Method) (segments : List JSString) : List Route → List (Route × Params)
  | [] => []
  | r :: rs =>
    match matchPath r.path segments with
    | PathMatch.noMatch => servingRoutes m segments rs
    | PathMatch.malformed => []
    | PathMatch.bound params =>
      if handlesMethod r m then (r, params) :: servingRoutes m segments rs
      else servingRoutes m segments rs

/-- The routes of the router a request matches, in registration order, each with its bound
parameters. -/
def matchingRoutes (req : Request) : List (Route × Params) :=
  match pathSegments req.path with
  | some segments => servingRoutes req.method segments router
  | none => []

/-- What a handler does with control: `next()` hands it to the next handler of the route,
`next('route')` to the next matching route; in every other case (a response sent without
calling `next`, `next(err)`, `next('router')`, an exception) no further handler of this router
is invoked. -/
inductive Signal where
  | next
  | nextRoute
  | leave
deriving DecidableEq

/-- One invocation of a handler: which one, with which `req.params`, and how it ended. -/
structure Call where
  handler : Handler
  params : Params
  signal : Signal
deriving DecidableEq

/-- Running the handlers of one matched route in order on the request state `σ`. The Boolean
tells whether the router goes on to the next matching route. -/
def runStack {σ : Type} (run : Handler → Params → σ → Signal × σ) (bound : Params) :
    List Handler → σ → List Call × Bool × σ
  | [], st => ([], true, st)
  | h :: hs, st =>
    match run h bound st with
    | (Signal.next, st1) =>
      let (calls, goOn, st2) := runStack run bound hs st1
      (⟨h, bound, Signal.next⟩ :: calls, goOn, st2)
    | (Signal.nextRoute, st1) => ([⟨h, bound, Signal.nextRoute⟩], true, st1)
    | (Signal.leave, st1) => ([⟨h, bound, Signal.leave⟩], false, st1)

/-- Running the matched routes one after the other. -/
def runRoutes {σ : Type} (run : Handler → Params → σ → Signal × σ) :
    List (Route × Params) → σ → List Call × σ
  | [], st => ([], st)
  | (r, bound) :: rest, st =>
    match runStack run bound r.stack st with
    | (calls, true, st1) =>
      let (more, st2) := runRoutes run rest st1
      (calls ++ more, st2)
    | (calls, false, st1) => (calls, st1)

/-- The router handling a request: the invocations it makes, in order, and the final state.
The behaviour `run` of the imported middleware and controllers is a parameter. -/
def handle {σ : Type} (run : Handler → Params → σ → Signal × σ) (req : Request) (st : σ) :
    List Call × σ :=
  runRoutes run (matchingRoutes req) st

/-! ## The registration ledger and service of spec.md

`registrationRoutes.js` imports `registerUser`, `getRegistrations`, `getUserRegistrations` and
`unregisterEvent` from `../controllers/registrationController.js`, which is not among the
sources. The ledger and the two mutating service operations are modelled from
spec.md §3, §4.1, §4.2, §6 and §7. -/

/-- Modelled from the spec: `userId`, an opaque identifier (§3). -/
abbrev UserId := Nat

/-- Modelled from the spec: `eventId`, an opaque identifier (§3). -/
abbrev EventId := Nat

/-- Modelled from the spec: the `status` of a Registration, one of Active, Cancelled (§3). -/
inductive Status where
  | Active
  | Cancelled
deriving DecidableEq

/-- Modelled from the spec: a Registration, one user's binding to one event (§3). The
timestamps `createdAt` and `cancelledAt` are left out: the spec gives the ledger no clock and no
operation reads them. -/
structure Registration where
  userId : UserId
  eventId : EventId
  status : Status
deriving DecidableEq

/-- Modelled from the spec: the Registration Ledger, the record of all registrations; rows are
never physically deleted (§3, Lifecycle). -/
abbrev Ledger := List Registration

/-- Modelled from the spec: the Event Directory, which answers `exists(eventId) -> bool` and
`capacityOf(eventId) -> integer | unbounded` (§6); `none` is unbounded, and a capacity is a
number of registrations (Glossary). -/
structure Directory where
  eventExists : EventId → Bool
  capacityOf : EventId → Option Nat

/-- Modelled from the spec: the error taxonomy of §7, with `NotOwner` of §4.1. -/
inductive Failure where
  | AuthRequired
  | Forbidden
  | EventNotFound
  | EventFull
  | AlreadyRegistered
  | NotRegistered
  | NotOwner
  | Transient
deriving DecidableEq

deriving instance DecidableEq for Except

/-- Modelled from the spec: the roles of §9 (attendee, admin). -/
inductive Role where
  | attendee
  | admin
deriving DecidableEq

/-- Modelled from the spec: the verified `{ userId, role }` the Identity Collaborator supplies
(§2, §6). -/
structure Identity where
  userId : UserId
  role : Role
deriving DecidableEq

/-- Modelled from the spec: is the row an Active registration of the pair `(userId, eventId)`
(Invariant I1)? -/
def isActiveFor (u : UserId) (e : EventId) (r : Registration) : Bool :=
  decide (r.userId = u) && decide (r.eventId = e) && decide (r.status = Status.Active)

/-- Modelled from the spec: is the row an Active registration for the event (Invariant I2)? -/
def isActiveAt (e : EventId) (r : Registration) : Bool :=
  decide (r.eventId = e) && decide (r.status = Status.Active)

/-- Modelled from the spec: the number of Active registrations of a pair (Invariant I1). -/
def pairActiveCount (u : UserId) (e : EventId) (l : Ledger) : Nat := l.countP (isActiveFor u e)

/-- Modelled from the spec: `activeCount`, the count of Active registrations for an event
(Invariant I2, §4.1). -/
def activeCount (e : EventId) (l : Ledger) : Nat := l.countP (isActiveAt e)

/-- Modelled from the spec: "check existing Active registration" (§4.1). -/
def hasActive (u : UserId) (e : EventId) (l : Ledger) : Bool := l.any (isActiveFor u e)

/-- Modelled from the spec: the status transition of one record of the pair: the first row of
`(userId, eventId)` in status `old` goes to status `new` (State machine, §4.2); `none` when the
pair has no row in status `old`. -/
def setFirst (u : UserId) (e : EventId) (old new : Status) : Ledger → Option Ledger
  | [] => none
  | r :: rs =>
    if r.userId = u ∧ r.eventId = e ∧ r.status = old then some ({ r with status := new } :: rs)
    else (setFirst u e old new rs).map (fun rest => r :: rest)

/-- Modelled from the spec: the capacity comparison `activeCount < capacity` (strict), with an
absent capacity interpreted as unbounded (§4.1). -/
def hasRoom (capacity : Option Nat) (count : Nat) : Bool :=
  match capacity with
  | none => true
  | some c => decide (count < c)

/-- Modelled from the spec: `create(userId, eventId)` of the Ledger (§4.1): the event must
exist, else EventNotFound; an existing Active registration of the pair gives AlreadyRegistered;
exhausted capacity gives EventFull; otherwise a Cancelled record of the pair is reactivated
(the preferred alternative of §4.1) or, when there is none, a new row is inserted. A failure
leaves the ledger as it was. -/
def create (dir : Directory) (u : UserId) (e : EventId) (l : Ledger) :
    Except Failure Registration × Ledger :=
  if !dir.eventExists e then (Except.error Failure.EventNotFound, l)
  else if hasActive u e l then (Except.error Failure.AlreadyRegistered, l)
  else if !hasRoom (dir.capacityOf e) (activeCount e l) then (Except.error Failure.EventFull, l)
  else
    match setFirst u e Status.Cancelled Status.Active l with
    | some l1 => (Except.ok ⟨u, e, Status.Active⟩, l1)
    | none => (Except.ok ⟨u, e, Status.Active⟩, l ++ [⟨u, e, Status.Active⟩])

/-- Modelled from the spec: `cancel(userId, eventId)` of the Ledger (§4.1): the Active record
of the pair goes to Cancelled; with no Active record it fails with NotRegistered. -/
def cancel (u : UserId) (e : EventId) (l : Ledger) : Except Failure Registration × Ledger :=
  match setFirst u e Status.Active Status.Cancelled l with
  | some l1 => (Except.ok ⟨u, e, Status.Cancelled⟩, l1)
  | none => (Except.error Failure.NotRegistered, l)

namespace Service

/-- Modelled from the spec: `registerUser(identity, eventId)` of the Service (§4.2): rejects an
unauthenticated caller with AuthRequired, otherwise delegates to `create` of the Ledger. -/
def registerUser (dir : Directory) (identity : Option Identity) (e : EventId) (l : Ledger) :
    Except Failure Registration × Ledger :=
  match identity with
  | none => (Except.error Failure.AuthRequired, l)
  | some caller => create dir caller.userId e l

/-- Modelled from the spec: `unregisterEvent(identity, eventId)` of the Service (§4.2): cancels
the caller's own Active registration for the event through `cancel` of the Ledger; a call that
carries no verified identity is AuthRequired (§7). -/
def unregisterEvent (identity : Option Identity) (e : EventId) (l : Ledger) :
    Except Failure Registration × Ledger :=
  match identity with
  | none => (Except.error Failure.AuthRequired, l)
  | some caller => cancel caller.userId e l

end Service

/-- Modelled from the spec: one call of a mutating operation of the Service. -/
inductive Op where
  | register (identity : Option Identity) (e : EventId)
  | unregister (identity : Option Identity) (e : EventId)
deriving DecidableEq

/-- Modelled from the spec: the ledger after one call. -/
def step (dir : Directory) (l : Ledger) : Op → Ledger
  | Op.register identity e => (Service.registerUser dir identity e l).2
  | Op.unregister identity e => (Service.unregisterEvent identity e l).2

/-- Modelled from the spec: the ledger after a sequence of calls applied one at a time. -/
def runOps (dir : Directory) (ops : List Op) (l : Ledger) : Ledger := ops.foldl (step dir) l

/-- Modelled from the spec: the invariant kept by every call: every row is for an existing event, a pair has at most
one Active row (I1), and an event with a finite capacity has no more Active rows than that
(I2). -/
def LedgerInv (dir : Directory) (l : Ledger) : Prop :=
  (∀ r ∈ l, dir.eventExists r.eventId = true) ∧
  (∀ u e, pairActiveCount u e l ≤ 1) ∧
  (∀ e c, dir.capacityOf e = some c → activeCount e l ≤ c)

/-! ## Theorems: regular expressions -/

namespace Regex

theorem nullable_iff (r : Regex) : nullable r = true ↔ Lang r [] := by
  induction r with
  | empty => simp [nullable, Lang]
  | eps => simp [nullable, Lang]
  | cls rs => simp [nullable, Lang]
  | seq a b iha ihb =>
    simp only [nullable, Lang, Bool.and_eq_true, iha, ihb]
    constructor
    · rintro ⟨h1, h2⟩
      exact ⟨[], [], rfl, h1, h2⟩
    · rintro ⟨u, v, huv, h1, h2⟩
      have hu : u = [] := (List.append_eq_nil.mp huv.symm).1
      have hv : v = [] := (List.append_eq_nil.mp huv.symm).2
      subst hu; subst hv
      exact ⟨h1, h2⟩
  | alt a b iha ihb => simp only [nullable, Lang, Bool.or_eq_true, iha, ihb]
  | star a _ =>
    simp only [nullable, Lang, true_iff]
    exact ⟨[], rfl, by simp⟩

theorem star_cons_iff (a : Regex) (c : Nat) (s : JSString) :
    Lang (star a) (c :: s) ↔ ∃ u v, s = u ++ v ∧ Lang a (c :: u) ∧ Lang (star a) v := by
  constructor
  · rintro ⟨parts, hjoin, hall⟩
    induction parts with
    | nil => simp at hjoin
    | cons p ps ih =>
      cases p with
      | nil =>
        simp only [List.flatten_cons, List.nil_append] at hjoin
        exact ih hjoin (fun q hq => hall q (List.mem_cons_of_mem _ hq))
      | cons d u =>
        simp only [List.flatten_cons, List.cons_append, List.cons.injEq] at hjoin
        obtain ⟨hd, hs⟩ := hjoin
        subst hd
        exact ⟨u, ps.flatten, hs, hall _ (List.mem_cons_self _ _),
          ps, rfl, fun q hq => hall q (List.mem_cons_of_mem _ hq)⟩
  · rintro ⟨u, v, hs, hu, parts, hv, hall⟩
    refine ⟨(c :: u) :: parts, ?_, ?_⟩
    · simp [hs, hv]
    · intro q hq
      rcases List.mem_cons.mp hq with h | h
      · exact h ▸ hu
      · exact hall q h

theorem deriv_iff (c : Nat) (r : Regex) : ∀ s, Lang (deriv c r) s ↔ Lang r (c :: s) := by
  induction r with
  | empty => intro s; simp [deriv, Lang]
  | eps => intro s; simp [deriv, Lang]
  | cls rs =>
    intro s
    by_cases h : inRanges c rs = true
    · simp only [deriv, h, if_true, Lang]
      constructor
      · rintro rfl
        exact ⟨c, rfl, h⟩
      · rintro ⟨d, hd, _⟩
        simp only [List.cons.injEq] at hd
        exact hd.2
    · simp only [deriv, h, Lang, false_iff]
      rintro ⟨d, hd, hin⟩
      simp only [List.cons.injEq] at hd
      exact h (hd.1 ▸ hin)
  | seq a b iha ihb =>
    intro s
    have key : Lang (seq a b) (c :: s) ↔
        (Lang a [] ∧ Lang b (c :: s)) ∨ ∃ u v, s = u ++ v ∧ Lang a (c :: u) ∧ Lang b v := by
      constructor
      · rintro ⟨u, v, huv, hu, hv⟩
        cases u with
        | nil =>
          left
          simp only [List.nil_append] at huv
          exact ⟨hu, huv ▸ hv⟩
        | cons d u =>
          right
          simp only [List.cons_append, List.cons.injEq] at huv
          exact ⟨u, v, huv.2, huv.1 ▸ hu, hv⟩
      · rintro (⟨h1, h2⟩ | ⟨u, v, hs, hu, hv⟩)
        · exact ⟨[], c :: s, rfl, h1, h2⟩
        · exact ⟨c :: u, v, by simp [hs], hu, hv⟩
    rw [key]
    by_cases hn : nullable a = true
    · simp only [deriv, hn, if_true, Lang, iha, ihb]
      have hnil : Lang a [] := (nullable_iff a).mp hn
      constructor
      · rintro (h | h)
        · exact Or.inr h
        · exact Or.inl ⟨hnil, h⟩
      · rintro (⟨_, h⟩ | h)
        · exact Or.inr h
        · exact Or.inl h
    · have hnil : ¬ Lang a [] := fun h => hn ((nullable_iff a).mpr h)
      simp only [deriv, hn, Lang, iha]
      constructor
      · intro h
        exact Or.inr h
      · rintro (⟨h, _⟩ | h)
        · exact absurd h hnil
        · exact h
  | alt a b iha ihb => intro s; simp only [deriv, Lang, iha, ihb]
  | star a iha =>
    intro s
    rw [star_cons_iff]
    simp only [deriv]
    constructor
    · rintro ⟨u, v, hs, hu, hv⟩
      exact ⟨u, v, hs, (iha u).mp hu, hv⟩
    · rintro ⟨u, v, hs, hu, hv⟩
      exact ⟨u, v, hs, (iha u).mpr hu, hv⟩

theorem rmatch_iff (r : Regex) (s : JSString) : rmatch r s = true ↔ Lang r s := by
  induction s generalizing r with
  | nil => simpa [rmatch] using nullable_iff r
  | cons c s ih => rw [rmatch, ih, deriv_iff]

end Regex

namespace Regex

theorem lang_cls_seq (rs : List (Nat × Nat)) (b : Regex) (s : JSString) :
    Lang (seq (cls rs) b) s ↔ ∃ c t, s = c :: t ∧ inRanges c rs = true ∧ Lang b t := by
  simp only [Lang]
  constructor
  · rintro ⟨u, v, hs, ⟨c, hu, hc⟩, hv⟩
    exact ⟨c, v, by simp [hs, hu], hc, hv⟩
  · rintro ⟨c, t, hs, hc, ht⟩
    exact ⟨[c], t, by simp [hs], ⟨c, rfl, hc⟩, ht⟩

theorem lang_rep_cls (rs : List (Nat × Nat)) :
    ∀ (lo hi : Nat) (s : JSString), Lang (rep (cls rs) lo hi) s ↔
      lo ≤ s.length ∧ s.length ≤ hi ∧ ∀ c ∈ s, inRanges c rs = true := by
  intro lo hi
  induction hi generalizing lo with
  | zero =>
    intro s
    cases lo with
    | zero =>
      simp only [rep, Lang]
      constructor
      · rintro rfl
        simp
      · rintro ⟨_, h, _⟩
        exact List.length_eq_zero.mp (Nat.le_zero.mp h)
    | succ lo =>
      simp only [rep, Lang, false_iff]
      rintro ⟨h1, h2, _⟩
      omega
  | succ hi ih =>
    intro s
    cases lo with
    | zero =>
      rw [rep]
      show (s = [] ∨ Lang (seq (cls rs) (rep (cls rs) 0 hi)) s) ↔ _
      rw [lang_cls_seq]
      constructor
      · rintro (rfl | ⟨c, t, rfl, hc, ht⟩)
        · simp
        · obtain ⟨_, h2, h3⟩ := (ih 0 t).mp ht
          refine ⟨Nat.zero_le _, by simpa using h2, ?_⟩
          intro d hd
          rcases List.mem_cons.mp hd with h | h
          · exact h ▸ hc
          · exact h3 d h
      · rintro ⟨_, h2, h3⟩
        cases s with
        | nil => exact Or.inl rfl
        | cons c t =>
          right
          refine ⟨c, t, rfl, h3 c (List.mem_cons_self _ _), (ih 0 t).mpr ⟨Nat.zero_le _, ?_, ?_⟩⟩
          · simpa using h2
          · exact fun d hd => h3 d (List.mem_cons_of_mem _ hd)
    | succ lo =>
      rw [rep, lang_cls_seq]
      constructor
      · rintro ⟨c, t, rfl, hc, ht⟩
        obtain ⟨h1, h2, h3⟩ := (ih lo t).mp ht
        refine ⟨by simpa using h1, by simpa using h2, ?_⟩
        intro d hd
        rcases List.mem_cons.mp hd with h | h
        · exact h ▸ hc
        · exact h3 d h
      · rintro ⟨h1, h2, h3⟩
        cases s with
        | nil => simp at h1
        | cons c t =>
          refine ⟨c, t, rfl, h3 c (List.mem_cons_self _ _), (ih lo t).mpr ⟨?_, ?_, ?_⟩⟩
          · simpa using h1
          · simpa using h2
          · exact fun d hd => h3 d (List.mem_cons_of_mem _ hd)

theorem lang_cls (rs : List (Nat × Nat)) (s : JSString) :
    Lang (cls rs) s ↔ ∃ c, s = [c] ∧ inRanges c rs = true := Iff.rfl

end Regex

theorem test_anchored (b : Regex) (s : JSString) :
    RegExp.test ⟨true, b, true⟩ s = Regex.rmatch b s := by
  simp [RegExp.test]

theorem test_search_cls (rs : List (Nat × Nat)) (s : JSString) :
    RegExp.test ⟨false, Regex.cls rs, false⟩ s = true ↔ ∃ c ∈ s, inRanges c rs = true := by
  simp only [RegExp.test, Bool.false_eq_true, if_false, List.any_eq_true, List.mem_tails,
    List.mem_inits, Regex.rmatch_iff, Regex.lang_cls]
  constructor
  · rintro ⟨t, ht, m, hm, c, rfl, hc⟩
    exact ⟨c, ht.subset (hm.subset (List.mem_singleton_self c)), hc⟩
  · rintro ⟨c, hmem, hc⟩
    obtain ⟨a, b, rfl⟩ := List.append_of_mem hmem
    exact ⟨c :: b, List.suffix_append _ _, [c], by simp, c, rfl, hc⟩

/-! ## Theorems: string methods -/

theorem split_ne_nil (sep : Nat) (s : JSString) : split sep s ≠ [] := by
  cases s with
  | nil => simp [split]
  | cons c cs =>
    rw [split]
    split_ifs
    · simp
    · split <;> simp

theorem split_of_not_mem (sep : Nat) (s : JSString) (h : sep ∉ s) : split sep s = [s] := by
  induction s with
  | nil => rfl
  | cons c cs ih =>
    have hc : c ≠ sep := fun e => h (e ▸ List.mem_cons_self _ _)
    have hcs : sep ∉ cs := fun e => h (List.mem_cons_of_mem _ e)
    rw [split, if_neg hc, ih hcs]

theorem split_append_sep (sep : Nat) (a b : JSString) (h : sep ∉ a) :
    split sep (a ++ sep :: b) = a :: split sep b := by
  induction a with
  | nil => simp [split]
  | cons c cs ih =>
    have hc : c ≠ sep := fun e => h (e ▸ List.mem_cons_self _ _)
    have hcs : sep ∉ cs := fun e => h (List.mem_cons_of_mem _ e)
    rw [List.cons_append, split, if_neg hc, ih hcs]

theorem split_eq_singleton (sep : Nat) (s a : JSString) (h : split sep s = [a]) :
    s = a ∧ sep ∉ a := by
  induction s generalizing a with
  | nil =>
    simp only [split, List.cons.injEq, and_true] at h
    subst h
    simp
  | cons c cs ih =>
    rw [split] at h
    by_cases hc : c = sep
    · rw [if_pos hc] at h
      simp only [List.cons.injEq] at h
      exact absurd h.2 (split_ne_nil sep cs)
    · rw [if_neg hc] at h
      cases hsp : split sep cs with
      | nil => exact absurd hsp (split_ne_nil sep cs)
      | cons q qs =>
        rw [hsp] at h
        simp only [List.cons.injEq] at h
        obtain ⟨rfl, rfl⟩ := h
        obtain ⟨h1, h2⟩ := ih q hsp
        subst h1
        refine ⟨rfl, ?_⟩
        intro hmem
        rcases List.mem_cons.mp hmem with e | e
        · exact hc e.symm
        · exact h2 e

theorem split_eq_pair (sep : Nat) (s a b : JSString) (h : split sep s = [a, b]) :
    s = a ++ sep :: b ∧ sep ∉ a ∧ sep ∉ b := by
  induction s generalizing a with
  | nil => simp [split] at h
  | cons c cs ih =>
    rw [split] at h
    by_cases hc : c = sep
    · rw [if_pos hc] at h
      simp only [List.cons.injEq] at h
      obtain ⟨rfl, h2⟩ := h
      obtain ⟨h3, h4⟩ := split_eq_singleton sep cs b h2
      subst h3
      exact ⟨by simp [hc], by simp, h4⟩
    · rw [if_neg hc] at h
      cases hsp : split sep cs with
      | nil => exact absurd hsp (split_ne_nil sep cs)
      | cons q qs =>
        rw [hsp] at h
        simp only [List.cons.injEq] at h
        obtain ⟨rfl, rfl⟩ := h
        obtain ⟨h1, h2, h3⟩ := ih q hsp
        refine ⟨by simp [h1], ?_, h3⟩
        intro hmem
        rcases List.mem_cons.mp hmem with e | e
        · exact hc e.symm
        · exact h2 e

/-! ## Theorems: the validators -/

theorem validateEmailDomain_iff (email : JSString) :
    validateEmailDomain email = true ↔
      ∃ l d, email = l ++ 64 :: d ∧ 64 ∉ l ∧ 64 ∉ d ∧ toLowerCase d ∈ allowedDomains := by
  constructor
  · intro h
    unfold validateEmailDomain at h
    simp only [ne_eq, ite_not] at h
    by_cases hlen : (split 64 email).length = 2
    · obtain ⟨a, b, hab⟩ := List.length_eq_two.mp hlen
      rw [if_pos hlen, hab] at h
      obtain ⟨h1, h2, h3⟩ := split_eq_pair 64 email a b hab
      exact ⟨a, b, h1, h2, h3, by simpa using h⟩
    · rw [if_neg hlen] at h
      exact absurd h (by simp)
  · rintro ⟨l, d, rfl, hl, hd, hmem⟩
    unfold validateEmailDomain
    rw [split_append_sep 64 l d hl, split_of_not_mem 64 d hd]
    simpa using hmem

theorem inRanges_nameClass (c : Nat) :
    inRanges c nameClass = true ↔ (IsLetter c ∨ inRanges c whiteSpace = true) := by
  simp only [nameClass, inRanges, upperAZ, lowerAZ, IsLetter, List.any_append, List.any_cons,
    List.any_nil, Bool.or_false, Bool.or_eq_true, Bool.and_eq_true, decide_eq_true_eq]

theorem nameRegExp_test_iff (name : JSString) :
    nameRegExp.test name = true ↔
      (3 ≤ name.length ∧ name.length ≤ 30 ∧
        ∀ c ∈ name, IsLetter c ∨ inRanges c whiteSpace = true) := by
  rw [nameRegExp, test_anchored, Regex.rmatch_iff, Regex.lang_rep_cls]
  simp only [inRanges_nameClass]

theorem upperRegExp_test_iff (s : JSString) :
    upperRegExp.test s = true ↔ ∃ c ∈ s, 65 ≤ c ∧ c ≤ 90 := by
  rw [upperRegExp, test_search_cls]
  simp [inRanges, upperAZ]

theorem lowerRegExp_test_iff (s : JSString) :
    lowerRegExp.test s = true ↔ ∃ c ∈ s, 97 ≤ c ∧ c ≤ 122 := by
  rw [lowerRegExp, test_search_cls]
  simp [inRanges, lowerAZ]

theorem digitRegExp_test_iff (s : JSString) :
    digitRegExp.test s = true ↔ ∃ c ∈ s, 48 ≤ c ∧ c ≤ 57 := by
  rw [digitRegExp, test_search_cls]
  simp [inRanges, digit09]

theorem js_special : js "@$!%*?&#" = [64, 36, 33, 37, 42, 63, 38, 35] := by decide

theorem specialRegExp_test_iff (s : JSString) :
    specialRegExp.test s = true ↔ ∃ c ∈ s, c ∈ js "@$!%*?&#" := by
  rw [specialRegExp, test_search_cls, js_special]
  constructor
  · rintro ⟨c, hc, h⟩
    refine ⟨c, hc, ?_⟩
    simp only [inRanges, specialClass, List.any_cons, List.any_nil, Bool.or_false,
      Bool.or_eq_true, Bool.and_eq_true, decide_eq_true_eq] at h
    simp only [List.mem_cons, List.mem_singleton, List.not_mem_nil, or_false]
    omega
  · rintro ⟨c, hc, h⟩
    refine ⟨c, hc, ?_⟩
    simp only [List.mem_cons, List.mem_singleton, List.not_mem_nil, or_false] at h
    simp only [inRanges, specialClass, List.any_cons, List.any_nil, Bool.or_false,
      Bool.or_eq_true, Bool.and_eq_true, decide_eq_true_eq]
    omega

/-- C6 (as amended): in both pages the name check rejects a name exactly when it is not a
string of 3 to 30 code units each of which is a letter `A`-`Z`, `a`-`z` or a white-space
character of the class `\s`; a rejected name makes the validator return false. -/
theorem name_check_iff (name email phone password : JSString) :
    ((validateInputs name email phone password).toasts = ["Name must be 3–30 letters only"] ↔
      ¬ (3 ≤ name.length ∧ name.length ≤ 30 ∧
          ∀ c ∈ name, IsLetter c ∨ inRanges c whiteSpace = true)) ∧
    ((validateProfile name email phone).toasts =
        ["Name must be 3–30 characters and contain only letters."] ↔
      ¬ (3 ≤ name.length ∧ name.length ≤ 30 ∧
          ∀ c ∈ name, IsLetter c ∨ inRanges c whiteSpace = true)) ∧
    (¬ (3 ≤ name.length ∧ name.length ≤ 30 ∧
          ∀ c ∈ name, IsLetter c ∨ inRanges c whiteSpace = true) →
      (validateInputs name email phone password).returned = false ∧
      (validateProfile name email phone).returned = false) := by
  rw [← nameRegExp_test_iff]
  by_cases h : nameRegExp.test name = true
  · refine ⟨?_, ?_, fun hn => absurd h hn⟩
    · simp only [h, not_true_eq_false, iff_false]
      unfold validateInputs
      simp only [h, Bool.not_true, Bool.false_eq_true, if_false]
      split_ifs <;> simp
    · simp only [h, not_true_eq_false, iff_false]
      unfold validateProfile
      simp only [h, Bool.not_true, Bool.false_eq_true, if_false]
      split_ifs <;> simp
  · have hv : validateInputs name email phone password =
        ⟨false, ["Name must be 3–30 letters only"]⟩ := by
      unfold validateInputs
      simp [h]
    have hp : validateProfile name email phone =
        ⟨false, ["Name must be 3–30 characters and contain only letters."]⟩ := by
      unfold validateProfile
      simp [h]
    simp [hv, hp, h]

/-- C6, witness: the name "Al" is too short and is rejected by both pages. -/
theorem name_check_iff_witness :
    (validateInputs (js "Al") (js "al@gmail.com") (js "9876543210") (js "Passw0rd!")).returned
        = false ∧
      (validateProfile (js "Al") (js "al@gmail.com") (js "9876543210")).returned = false :=
  (name_check_iff (js "Al") (js "al@gmail.com") (js "9876543210") (js "Passw0rd!")).2.2
    (by decide)

/-- C6, counterexample: the name "Ann Lee" contains a space, which is not a letter, and both
pages accept it; and the name "A1x", which `validateProfile` rejects, is not rejected there with
the message "Name must be 3–30 letters only" but with the message of `UpdateProfile.jsx`. -/
theorem name_with_space_accepted :
    validateInputs (js "Ann Lee") (js "ann@gmail.com") (js "9876543210") (js "Passw0rd!")
        = ⟨true, []⟩ ∧
      validateProfile (js "Ann Lee") (js "ann@gmail.com") (js "9876543210") = ⟨true, []⟩ ∧
      3 ≤ (js "Ann Lee").length ∧ (js "Ann Lee").length ≤ 30 ∧
      ¬ (∀ c ∈ js "Ann Lee", IsLetter c) ∧
      validateProfile (js "A1x") (js "ann@gmail.com") (js "9876543210") =
        ⟨false, ["Name must be 3–30 characters and contain only letters."]⟩ := by
  decide

/-- C7: when the name, the email and the phone pass their checks, `validateInputs` returns true
exactly when the password has at least 8 code units and contains an uppercase letter, a
lowercase letter, a digit and one of `@$!%*?&#`; otherwise it returns false after showing the
message of the first rule that fails, in the order length, uppercase, lowercase, digit, special
character. -/
theorem password_rules (name email phone password : JSString)
    (hName : nameRegExp.test name = true) (hEmail : emailRegExp.test email = true)
    (hDomain : validateEmailDomain email = true) (hPhone : phoneRegExp.test phone = true) :
    ((validateInputs name email phone password).returned = true ↔
      (8 ≤ password.length ∧ (∃ c ∈ password, 65 ≤ c ∧ c ≤ 90) ∧
        (∃ c ∈ password, 97 ≤ c ∧ c ≤ 122) ∧ (∃ c ∈ password, 48 ≤ c ∧ c ≤ 57) ∧
        (∃ c ∈ password, c ∈ js "@$!%*?&#"))) ∧
    (password.length < 8 →
      validateInputs name email phone password =
        ⟨false, ["Password must contain at least 8 characters."]⟩) ∧
    (8 ≤ password.length → ¬ (∃ c ∈ password, 65 ≤ c ∧ c ≤ 90) →
      validateInputs name email phone password =
        ⟨false, ["Password must contain at least one uppercase letter (A-Z)."]⟩) ∧
    (8 ≤ password.length → (∃ c ∈ password, 65 ≤ c ∧ c ≤ 90) →
      ¬ (∃ c ∈ password, 97 ≤ c ∧ c ≤ 122) →
      validateInputs name email phone password =
        ⟨false, ["Password must contain at least one lowercase letter (a-z)."]⟩) ∧
    (8 ≤ password.length → (∃ c ∈ password, 65 ≤ c ∧ c ≤ 90) →
      (∃ c ∈ password, 97 ≤ c ∧ c ≤ 122) → ¬ (∃ c ∈ password, 48 ≤ c ∧ c ≤ 57) →
      validateInputs name email phone password =
        ⟨false, ["Password must contain at least one number (0-9)."]⟩) ∧
    (8 ≤ password.length → (∃ c ∈ password, 65 ≤ c ∧ c ≤ 90) →
      (∃ c ∈ password, 97 ≤ c ∧ c ≤ 122) → (∃ c ∈ password, 48 ≤ c ∧ c ≤ 57) →
      ¬ (∃ c ∈ password, c ∈ js "@$!%*?&#") →
      validateInputs name email phone password =
        ⟨false, ["Password must contain at least one special character (@$!%*?&#)."]⟩) := by
  rw [← upperRegExp_test_iff, ← lowerRegExp_test_iff, ← digitRegExp_test_iff,
    ← specialRegExp_test_iff]
  have hv : validateInputs name email phone password =
      if password.length < 8 then ⟨false, ["Password must contain at least 8 characters."]⟩
      else if !upperRegExp.test password then
        ⟨false, ["Password must contain at least one uppercase letter (A-Z)."]⟩
      else if !lowerRegExp.test password then
        ⟨false, ["Password must contain at least one lowercase letter (a-z)."]⟩
      else if !digitRegExp.test password then
        ⟨false, ["Password must contain at least one number (0-9)."]⟩
      else if !specialRegExp.test password then
        ⟨false, ["Password must contain at least one special character (@$!%*?&#)."]⟩
      else ⟨true, []⟩ := by
    unfold validateInputs
    simp only [hName, hEmail, hDomain, hPhone, Bool.not_true, Bool.false_eq_true, if_false]
  rw [hv]
  refine ⟨?_, ?_, ?_, ?_, ?_, ?_⟩
  · by_cases h0 : password.length < 8
    · simp only [h0, if_true, Bool.false_eq_true, false_iff]
      omega
    · by_cases h1 : upperRegExp.test password = true <;>
        by_cases h2 : lowerRegExp.test password = true <;>
        by_cases h3 : digitRegExp.test password = true <;>
        by_cases h4 : specialRegExp.test password = true <;>
        simp [h0, h1, h2, h3, h4]
      omega
  · intro h0
    simp [h0]
  · intro h0 h1
    simp [Nat.not_lt.mpr h0, h1]
  · intro h0 h1 h2
    simp [Nat.not_lt.mpr h0, h1, h2]
  · intro h0 h1 h2 h3
    simp [Nat.not_lt.mpr h0, h1, h2, h3]
  · intro h0 h1 h2 h3 h4
    simp [Nat.not_lt.mpr h0, h1, h2, h3, h4]

/-- C7, witness: with a valid name, email and phone the password "Passw0rd!" is accepted. -/
theorem password_rules_witness :
    nameRegExp.test (js "Ann Lee") = true ∧ emailRegExp.test (js "ann@gmail.com") = true ∧
      validateEmailDomain (js "ann@gmail.com") = true ∧
      phoneRegExp.test (js "9876543210") = true ∧
      (validateInputs (js "Ann Lee") (js "ann@gmail.com") (js "9876543210")
          (js "Passw0rd!")).returned = true :=
  ⟨by decide, by decide, by decide, by decide,
    (password_rules (js "Ann Lee") (js "ann@gmail.com") (js "9876543210") (js "Passw0rd!")
      (by decide) (by decide) (by decide) (by decide)).1.mpr (by decide)⟩

/-- C8: `validateEmailDomain` returns true exactly for a string with a single `@` whose part
after the `@`, lower-cased, is one of the seven entries of `allowedDomains`; and neither
`validateInputs` nor `validateProfile` returns true for any other email. -/
theorem only_allowed_domains (email : JSString) :
    (validateEmailDomain email = true ↔
      ∃ l d, email = l ++ 64 :: d ∧ 64 ∉ l ∧ 64 ∉ d ∧
        toLowerCase d ∈ [js "gmail.com", js "yahoo.com", js "outlook.com", js "hotmail.com",
          js "icloud.com", js "protonmail.com", js "live.com"]) ∧
    (∀ name phone password, (validateInputs name email phone password).returned = true →
      ∃ l d, email = l ++ 64 :: d ∧ 64 ∉ l ∧ 64 ∉ d ∧
        toLowerCase d ∈ [js "gmail.com", js "yahoo.com", js "outlook.com", js "hotmail.com",
          js "icloud.com", js "protonmail.com", js "live.com"]) ∧
    (∀ name phone, (validateProfile name email phone).returned = true →
      ∃ l d, email = l ++ 64 :: d ∧ 64 ∉ l ∧ 64 ∉ d ∧
        toLowerCase d ∈ [js "gmail.com", js "yahoo.com", js "outlook.com", js "hotmail.com",
          js "icloud.com", js "protonmail.com", js "live.com"]) := by
  refine ⟨validateEmailDomain_iff email, ?_, ?_⟩
  · intro name phone password h
    apply (validateEmailDomain_iff email).mp
    by_contra hd
    unfold validateInputs at h
    simp only [hd] at h
    revert h
    split_ifs <;> simp_all
  · intro name phone h
    apply (validateEmailDomain_iff email).mp
    by_contra hd
    unfold validateProfile at h
    simp only [hd] at h
    revert h
    split_ifs <;> simp_all

/-- C8, witness: "ann@Gmail.COM" is accepted, its domain being "gmail.com" once lower-cased. -/
theorem only_allowed_domains_witness :
    validateEmailDomain (js "ann@Gmail.COM") = true ∧
      ∃ l d, js "ann@Gmail.COM" = l ++ 64 :: d ∧ 64 ∉ l ∧ 64 ∉ d ∧
        toLowerCase d ∈ [js "gmail.com", js "yahoo.com", js "outlook.com", js "hotmail.com",
          js "icloud.com", js "protonmail.com", js "live.com"] :=
  ⟨by decide, (only_allowed_domains (js "ann@Gmail.COM")).1.mp (by decide)⟩

/-! ## Theorems: the registration router -/



theorem servingRoutes_classify (m : Method) (segs : List JSString) :
    servingRoutes m segs router = [] ∨
    (m = Method.POST ∧ segs = [] ∧ servingRoutes m segs router = [(postRoot, [])]) ∨
    ((m = Method.GET ∨ m = Method.HEAD) ∧ segs = [] ∧
      servingRoutes m segs router = [(getRoot, [])]) ∨
    ((m = Method.GET ∨ m = Method.HEAD) ∧
      ∃ u raw id, segs = [u, raw] ∧ u.map foldCase = (js "user").map foldCase ∧ raw ≠ [] ∧
        decodeURIComponent raw = some id ∧
        servingRoutes m segs router = [(getUser, [("userId", id)])]) ∨
    (m = Method.DELETE ∧
      ∃ raw id, segs = [raw] ∧ raw ≠ [] ∧ decodeURIComponent raw = some id ∧
        servingRoutes m segs router = [(deleteEvent, [("eventId", id)])]) := by
  rcases segs with _ | ⟨a, _ | ⟨b, _ | ⟨c, t⟩⟩⟩
  · cases m <;>
      simp [servingRoutes, router, postRoot, getRoot, getUser, deleteEvent, handlesMethod,
        matchPath]
  · by_cases ha : a = []
    · left
      simp [servingRoutes, router, postRoot, getRoot, getUser, deleteEvent, matchPath, ha]
    · cases hd : decodeURIComponent a with
      | none =>
        left
        simp [servingRoutes, router, postRoot, getRoot, getUser, deleteEvent, matchPath, ha, hd]
      | some id =>
        cases m <;>
          simp [servingRoutes, router, postRoot, getRoot, getUser, deleteEvent, handlesMethod,
            matchPath, ha, hd]
  · by_cases hu : a.map foldCase = (js "user").map foldCase
    · by_cases hb : b = []
      · left
        simp [servingRoutes, router, postRoot, getRoot, getUser, deleteEvent, matchPath, hu, hb]
      · cases hd : decodeURIComponent b with
        | none =>
          left
          simp [servingRoutes, router, postRoot, getRoot, getUser, deleteEvent, matchPath, hu,
            hb, hd]
        | some id =>
          cases m <;>
            simp [servingRoutes, router, postRoot, getRoot, getUser, deleteEvent, handlesMethod,
              matchPath, hu, hb, hd] <;>
            exact ⟨_, _, ⟨rfl, rfl⟩, hu, hb, hd⟩
    · left
      simp [servingRoutes, router, postRoot, getRoot, getUser, deleteEvent, matchPath, hu]
  · left
    simp [servingRoutes, router, postRoot, getRoot, getUser, deleteEvent, matchPath]

theorem matchingRoutes_classify (req : Request) :
    matchingRoutes req = [] ∨
    (req.method = Method.POST ∧ pathSegments req.path = some [] ∧
      matchingRoutes req = [(postRoot, [])]) ∨
    ((req.method = Method.GET ∨ req.method = Method.HEAD) ∧ pathSegments req.path = some [] ∧
      matchingRoutes req = [(getRoot, [])]) ∨
    ((req.method = Method.GET ∨ req.method = Method.HEAD) ∧
      ∃ u raw id, pathSegments req.path = some [u, raw] ∧
        u.map foldCase = (js "user").map foldCase ∧ raw ≠ [] ∧
        decodeURIComponent raw = some id ∧
        matchingRoutes req = [(getUser, [("userId", id)])]) ∨
    (req.method = Method.DELETE ∧
      ∃ raw id, pathSegments req.path = some [raw] ∧ raw ≠ [] ∧
        decodeURIComponent raw = some id ∧
        matchingRoutes req = [(deleteEvent, [("eventId", id)])]) := by
  unfold matchingRoutes
  cases hp : pathSegments req.path with
  | none => exact Or.inl rfl
  | some segs =>
    rcases servingRoutes_classify req.method segs with h | ⟨hm, hs, h⟩ | ⟨hm, hs, h⟩ |
      ⟨hm, u, raw, id, hs, hu, hr, hd, h⟩ | ⟨hm, raw, id, hs, hr, hd, h⟩
    · exact Or.inl h
    · exact Or.inr (Or.inl ⟨hm, by rw [hs], h⟩)
    · exact Or.inr (Or.inr (Or.inl ⟨hm, by rw [hs], h⟩))
    · exact Or.inr (Or.inr (Or.inr (Or.inl ⟨hm, u, raw, id, by rw [hs], hu, hr, hd, h⟩)))
    · exact Or.inr (Or.inr (Or.inr (Or.inr ⟨hm, raw, id, by rw [hs], hr, hd, h⟩)))

theorem pathSegments_root : pathSegments (js "/") = some [] := by decide

theorem pathSegments_one (raw : JSString) (hne : raw ≠ []) (hslash : 47 ∉ raw) :
    pathSegments (js "/" ++ raw) = some [raw] := by
  have h1 : js "/" ++ raw = [] ++ 47 :: raw := by
    have : js "/" = [47] := by decide
    rw [this]
    rfl
  rw [pathSegments, h1, split_append_sep 47 [] raw (by simp), split_of_not_mem 47 raw hslash]
  simp [dropTrailingEmpty, hne]

theorem pathSegments_user (raw : JSString) (hne : raw ≠ []) (hslash : 47 ∉ raw) :
    pathSegments (js "/user/" ++ raw) = some [js "user", raw] := by
  have h1 : js "/user/" ++ raw = [] ++ 47 :: (js "user" ++ 47 :: raw) := by
    have : js "/user/" = [47] ++ js "user" ++ [47] := by decide
    rw [this]
    simp
  have h2 : 47 ∉ js "user" := by decide
  rw [pathSegments, h1, split_append_sep 47 [] _ (by simp), split_append_sep 47 _ raw h2,
    split_of_not_mem 47 raw hslash]
  simp [dropTrailingEmpty, hne]

theorem runRoutes_single {σ : Type} (run : Handler → Params → σ → Signal × σ) (r : Route)
    (bound : Params) (c : Handler) (st : σ)
    (hr : r.stack = [Handler.authMiddleware, c]) :
    (runRoutes run [(r, bound)] st).1 =
      if (run Handler.authMiddleware bound st).1 = Signal.next then
        [⟨Handler.authMiddleware, bound, Signal.next⟩,
          ⟨c, bound, (run c bound (run Handler.authMiddleware bound st).2).1⟩]
      else [⟨Handler.authMiddleware, bound, (run Handler.authMiddleware bound st).1⟩] := by
  rcases h1 : run Handler.authMiddleware bound st with ⟨s1, st1⟩
  rcases h2 : run c bound st1 with ⟨s2, st2⟩
  cases s1 <;> cases s2 <;> simp [runRoutes, runStack, hr, h1, h2]

theorem handle_cases {σ : Type} (run : Handler → Params → σ → Signal × σ) (req : Request)
    (st : σ) :
    (handle run req st).1 = [] ∨
    ∃ bound c, c ≠ Handler.authMiddleware ∧
      (handle run req st).1 =
        if (run Handler.authMiddleware bound st).1 = Signal.next then
          [⟨Handler.authMiddleware, bound, Signal.next⟩,
            ⟨c, bound, (run c bound (run Handler.authMiddleware bound st).2).1⟩]
        else [⟨Handler.authMiddleware, bound, (run Handler.authMiddleware bound st).1⟩] := by
  unfold handle
  rcases matchingRoutes_classify req with h | ⟨_, _, h⟩ | ⟨_, _, h⟩ |
    ⟨_, _, _, _, _, _, _, _, h⟩ | ⟨_, _, _, _, _, _, h⟩
  · left
    rw [h]
    rfl
  · right
    rw [h]
    exact ⟨_, Handler.registerUser, by decide, runRoutes_single run _ _ _ st rfl⟩
  · right
    rw [h]
    exact ⟨_, Handler.getRegistrations, by decide, runRoutes_single run _ _ _ st rfl⟩
  · right
    rw [h]
    exact ⟨_, Handler.getUserRegistrations, by decide, runRoutes_single run _ _ _ st rfl⟩
  · right
    rw [h]
    exact ⟨_, Handler.unregisterEvent, by decide, runRoutes_single run _ _ _ st rfl⟩

theorem handle_of_single {σ : Type} (run : Handler → Params → σ → Signal × σ) (req : Request)
    (st : σ) (r : Route) (bound : Params) (c : Handler)
    (hm : matchingRoutes req = [(r, bound)]) (hr : r.stack = [Handler.authMiddleware, c])
    (hnext : (run Handler.authMiddleware bound st).1 = Signal.next) :
    (handle run req st).1 =
      [⟨Handler.authMiddleware, bound, Signal.next⟩,
        ⟨c, bound, (run c bound (run Handler.authMiddleware bound st).2).1⟩] := by
  unfold handle
  rw [hm, runRoutes_single run r bound c st hr, if_pos hnext]

theorem call_of_single {σ : Type} (run : Handler → Params → σ → Signal × σ) (req : Request)
    (st : σ) (r : Route) (bound : Params) (c : Handler) (call : Call)
    (hm : matchingRoutes req = [(r, bound)]) (hr : r.stack = [Handler.authMiddleware, c])
    (hcall : call ∈ (handle run req st).1) :
    (call.handler = Handler.authMiddleware ∨ call.handler = c) ∧ call.params = bound := by
  unfold handle at hcall
  rw [hm, runRoutes_single run r bound c st hr] at hcall
  split_ifs at hcall
  · simp only [List.mem_cons, List.mem_singleton, List.not_mem_nil, or_false] at hcall
    rcases hcall with rfl | rfl
    · exact ⟨Or.inl rfl, rfl⟩
    · exact ⟨Or.inr rfl, rfl⟩
  · simp only [List.mem_singleton] at hcall
    subst hcall
    exact ⟨Or.inl rfl, rfl⟩

/-- C1: every route of the router has the handler chain `authMiddleware` followed by one
controller; whatever the middleware and the controllers do, a controller is invoked for a
request only as the second invocation, right after `authMiddleware` ran on that request and
called `next()`; and when `authMiddleware` does not call `next()`, no controller is invoked. -/
theorem auth_before_controller {σ : Type} (run : Handler → Params → σ → Signal × σ)
    (req : Request) (st : σ) :
    (∀ r ∈ router, ∃ c, c ≠ Handler.authMiddleware ∧ r.stack = [Handler.authMiddleware, c]) ∧
    (∀ call ∈ (handle run req st).1, call.handler ≠ Handler.authMiddleware →
      (run Handler.authMiddleware call.params st).1 = Signal.next ∧
      (handle run req st).1 = [⟨Handler.authMiddleware, call.params, Signal.next⟩, call]) ∧
    ((∀ bound, (run Handler.authMiddleware bound st).1 ≠ Signal.next) →
      ∀ call ∈ (handle run req st).1, call.handler = Handler.authMiddleware) := by
  refine ⟨?_, ?_, ?_⟩
  · intro r hr
    simp only [router, List.mem_cons, List.mem_singleton, List.not_mem_nil, or_false] at hr
    rcases hr with rfl | rfl | rfl | rfl
    · exact ⟨Handler.registerUser, by decide, rfl⟩
    · exact ⟨Handler.getRegistrations, by decide, rfl⟩
    · exact ⟨Handler.getUserRegistrations, by decide, rfl⟩
    · exact ⟨Handler.unregisterEvent, by decide, rfl⟩
  · intro call hcall hne
    rcases handle_cases run req st with h | ⟨bound, c, _, h⟩
    · rw [h] at hcall
      simp at hcall
    · rw [h] at hcall ⊢
      by_cases hs : (run Handler.authMiddleware bound st).1 = Signal.next
      · simp only [hs, if_true, List.mem_cons, List.mem_singleton, List.not_mem_nil,
          or_false] at hcall ⊢
        rcases hcall with rfl | rfl
        · exact absurd rfl hne
        · exact ⟨hs, rfl⟩
      · simp only [hs, if_false, List.mem_singleton] at hcall
        subst hcall
        exact absurd rfl hne
  · intro hrej call hcall
    rcases handle_cases run req st with h | ⟨bound, c, _, h⟩
    · rw [h] at hcall
      simp at hcall
    · rw [h, if_neg (hrej bound)] at hcall
      simp only [List.mem_singleton] at hcall
      subst hcall
      rfl

/-- C1, witness: when `authMiddleware` calls `next()`, `POST /` invokes it and then
`registerUser`. -/
theorem auth_before_controller_witness :
    (handle (fun h _ (st : Unit) =>
        (if h = Handler.authMiddleware then Signal.next else Signal.leave, st))
      ⟨Method.POST, js "/"⟩ ()).1 =
      [⟨Handler.authMiddleware, [], Signal.next⟩, ⟨Handler.registerUser, [], Signal.leave⟩] :=
  ((auth_before_controller
    (fun h _ (st : Unit) => (if h = Handler.authMiddleware then Signal.next else Signal.leave, st))
    ⟨Method.POST, js "/"⟩ ()).2.1 ⟨Handler.registerUser, [], Signal.leave⟩ (by decide)
      (by decide)).2

theorem utf8Units_unit (c : Nat) (ts : List UriToken) :
    utf8Units (UriToken.unit c :: ts) = (utf8Units ts).map (fun s => c :: s) := rfl

theorem uriTokens_cons_ne (c : Nat) (rest : JSString) (h : c ≠ 37) :
    uriTokens (c :: rest) = (uriTokens rest).map (fun ts => UriToken.unit c :: ts) := by
  have h2 : uriTokens (c :: rest) =
      if c ≠ 37 then (uriTokens rest).map (fun ts => UriToken.unit c :: ts)
      else
        match rest with
        | a :: b :: rest1 =>
          match hexValue a, hexValue b with
          | some x, some y =>
            (uriTokens rest1).map (fun ts => UriToken.octet (16 * x + y) :: ts)
          | _, _ => none
        | _ => none := by
    cases rest with
    | nil => rfl
    | cons a t =>
      cases t with
      | nil => rfl
      | cons b u => rfl
  rw [h2, if_pos h]

theorem uriTokens_plain (s : JSString) (h : 37 ∉ s) :
    uriTokens s = some (s.map UriToken.unit) := by
  induction s with
  | nil => rfl
  | cons c cs ih =>
    have hc : c ≠ 37 := fun e => h (e ▸ List.mem_cons_self _ _)
    have hcs : 37 ∉ cs := fun e => h (List.mem_cons_of_mem _ e)
    rw [uriTokens_cons_ne c cs hc, ih hcs]
    rfl

theorem utf8Units_plain (s : JSString) : utf8Units (s.map UriToken.unit) = some s := by
  induction s with
  | nil => rfl
  | cons c cs ih =>
    rw [List.map_cons, utf8Units_unit, ih]
    rfl

theorem decodeURIComponent_plain (s : JSString) (h : 37 ∉ s) :
    decodeURIComponent s = some s := by
  rw [decodeURIComponent, uriTokens_plain s h]
  exact utf8Units_plain s

/-- C2: the router has four routes, whose chains end in `registerUser`, `getRegistrations`,
`getUserRegistrations` and `unregisterEvent`. When `authMiddleware` passes control on, the
router handling `POST /` invokes `registerUser`, handling `GET /` invokes `getRegistrations`,
handling `GET /user/<id>` invokes `getUserRegistrations` with `userId = <id>` and handling
`DELETE /<id>` invokes `unregisterEvent` with `eventId = <id>`, where `<id>` is the decoded
value of the raw segment, which is the segment itself when it has no `%`. No request matches more than one route. A controller is invoked for
no other method and path than its own (HEAD being answered by the routes for GET), and the
only parameter of the DELETE route is `eventId`. -/
theorem router_dispatch {σ : Type} (run : Handler → Params → σ → Signal × σ) (st : σ) :
    router.length = 4 ∧
    router.map (fun r => r.stack) =
      [[Handler.authMiddleware, Handler.registerUser],
       [Handler.authMiddleware, Handler.getRegistrations],
       [Handler.authMiddleware, Handler.getUserRegistrations],
       [Handler.authMiddleware, Handler.unregisterEvent]] ∧
    ((run Handler.authMiddleware [] st).1 = Signal.next →
      (handle run ⟨Method.POST, js "/"⟩ st).1 =
        [⟨Handler.authMiddleware, [], Signal.next⟩,
          ⟨Handler.registerUser, [],
            (run Handler.registerUser [] (run Handler.authMiddleware [] st).2).1⟩]) ∧
    ((run Handler.authMiddleware [] st).1 = Signal.next →
      (handle run ⟨Method.GET, js "/"⟩ st).1 =
        [⟨Handler.authMiddleware, [], Signal.next⟩,
          ⟨Handler.getRegistrations, [],
            (run Handler.getRegistrations [] (run Handler.authMiddleware [] st).2).1⟩]) ∧
    (∀ raw id : JSString, raw ≠ [] → 47 ∉ raw → decodeURIComponent raw = some id →
      (run Handler.authMiddleware [("userId", id)] st).1 = Signal.next →
      (handle run ⟨Method.GET, js "/user/" ++ raw⟩ st).1 =
        [⟨Handler.authMiddleware, [("userId", id)], Signal.next⟩,
          ⟨Handler.getUserRegistrations, [("userId", id)],
            (run Handler.getUserRegistrations [("userId", id)]
              (run Handler.authMiddleware [("userId", id)] st).2).1⟩]) ∧
    (∀ raw id : JSString, raw ≠ [] → 47 ∉ raw → decodeURIComponent raw = some id →
      (run Handler.authMiddleware [("eventId", id)] st).1 = Signal.next →
      (handle run ⟨Method.DELETE, js "/" ++ raw⟩ st).1 =
        [⟨Handler.authMiddleware, [("eventId", id)], Signal.next⟩,
          ⟨Handler.unregisterEvent, [("eventId", id)],
            (run Handler.unregisterEvent [("eventId", id)]
              (run Handler.authMiddleware [("eventId", id)] st).2).1⟩]) ∧
    (∀ id : JSString, 37 ∉ id → decodeURIComponent id = some id) ∧
    (∀ req, (matchingRoutes req).length ≤ 1) ∧
    (∀ req, ∀ call ∈ (handle run req st).1,
      (call.handler = Handler.registerUser →
        req.method = Method.POST ∧ pathSegments req.path = some [] ∧ call.params = []) ∧
      (call.handler = Handler.getRegistrations →
        (req.method = Method.GET ∨ req.method = Method.HEAD) ∧
          pathSegments req.path = some [] ∧ call.params = []) ∧
      (call.handler = Handler.getUserRegistrations →
        (req.method = Method.GET ∨ req.method = Method.HEAD) ∧
          ∃ u raw id, pathSegments req.path = some [u, raw] ∧ u.map foldCase = js "user" ∧
            decodeURIComponent raw = some id ∧ call.params = [("userId", id)]) ∧
      (call.handler = Handler.unregisterEvent →
        req.method = Method.DELETE ∧
          ∃ raw id, pathSegments req.path = some [raw] ∧
            decodeURIComponent raw = some id ∧ call.params = [("eventId", id)])) ∧
    (∀ req bound, (deleteEvent, bound) ∈ matchingRoutes req →
      bound.map Prod.fst = ["eventId"]) := by
  have huser : (js "user").map foldCase = js "user" := by decide
  refine ⟨rfl, rfl, ?_, ?_, ?_, ?_, decodeURIComponent_plain, ?_, ?_, ?_⟩
  · intro hnext
    exact handle_of_single run _ st postRoot [] _ (by decide) rfl hnext
  · intro hnext
    exact handle_of_single run _ st getRoot [] _ (by decide) rfl hnext
  · intro raw id hne hslash hdec hnext
    refine handle_of_single run _ st getUser _ _ ?_ rfl hnext
    simp [matchingRoutes, pathSegments_user raw hne hslash, servingRoutes, router, postRoot,
      getRoot, getUser, deleteEvent, handlesMethod, matchPath, hne, hdec]
  · intro raw id hne hslash hdec hnext
    refine handle_of_single run _ st deleteEvent _ _ ?_ rfl hnext
    simp [matchingRoutes, pathSegments_one raw hne hslash, servingRoutes, router, postRoot,
      getRoot, getUser, deleteEvent, handlesMethod, matchPath, hne, hdec]
  · intro req
    rcases matchingRoutes_classify req with h | ⟨_, _, h⟩ | ⟨_, _, h⟩ |
      ⟨_, _, _, _, _, _, _, _, h⟩ | ⟨_, _, _, _, _, _, h⟩ <;> simp [h]
  · intro req call hcall
    rcases matchingRoutes_classify req with h | ⟨hm, hp, h⟩ | ⟨hm, hp, h⟩ |
      ⟨hm, u, raw, id, hp, hu, _, hd, h⟩ | ⟨hm, raw, id, hp, _, hd, h⟩
    · unfold handle at hcall
      rw [h] at hcall
      simp [runRoutes] at hcall
    · obtain ⟨hh, hb⟩ := call_of_single run req st postRoot [] _ call h rfl hcall
      refine ⟨fun _ => ⟨hm, hp, hb⟩, ?_, ?_, ?_⟩ <;>
        (intro hc; rw [hc] at hh; simp at hh)
    · obtain ⟨hh, hb⟩ := call_of_single run req st getRoot [] _ call h rfl hcall
      refine ⟨?_, fun _ => ⟨hm, hp, hb⟩, ?_, ?_⟩ <;>
        (intro hc; rw [hc] at hh; simp at hh)
    · obtain ⟨hh, hb⟩ := call_of_single run req st getUser _ _ call h rfl hcall
      refine ⟨?_, ?_, fun _ => ⟨hm, u, raw, id, hp, hu.trans huser, hd, hb⟩, ?_⟩ <;>
        (intro hc; rw [hc] at hh; simp at hh)
    · obtain ⟨hh, hb⟩ := call_of_single run req st deleteEvent _ _ call h rfl hcall
      refine ⟨?_, ?_, ?_, fun _ => ⟨hm, raw, id, hp, hd, hb⟩⟩ <;>
        (intro hc; rw [hc] at hh; simp at hh)
  · intro req bound hmem
    rcases matchingRoutes_classify req with h | ⟨_, _, h⟩ | ⟨_, _, h⟩ |
      ⟨_, _, _, _, _, _, _, _, h⟩ | ⟨_, _, _, _, _, _, h⟩ <;> rw [h] at hmem <;>
      simp [postRoot, getRoot, getUser, deleteEvent] at hmem
    rw [hmem]
    rfl

/-- C2, witness: when `authMiddleware` passes control on, `DELETE /a%2Fb` invokes
`unregisterEvent` with `eventId = a/b`. -/
theorem router_dispatch_witness :
    (handle (fun h _ (st : Unit) =>
        (if h = Handler.authMiddleware then Signal.next else Signal.leave, st))
      ⟨Method.DELETE, js "/" ++ js "a%2Fb"⟩ ()).1 =
      [⟨Handler.authMiddleware, [("eventId", js "a/b")], Signal.next⟩,
        ⟨Handler.unregisterEvent, [("eventId", js "a/b")], Signal.leave⟩] :=
  (router_dispatch
    (fun h _ (st : Unit) => (if h = Handler.authMiddleware then Signal.next else Signal.leave, st))
    ()).2.2.2.2.2.1 (js "a%2Fb") (js "a/b") (by decide) (by decide) (by decide) (by decide)

/-! ## Theorems: the registration ledger -/

theorem setFirst_some (u : UserId) (e : EventId) (old new : Status) (l l1 : Ledger)
    (h : setFirst u e old new l = some l1) :
    ∃ a b, l = a ++ ⟨u, e, old⟩ :: b ∧ l1 = a ++ ⟨u, e, new⟩ :: b := by
  induction l generalizing l1 with
  | nil => simp [setFirst] at h
  | cons r rs ih =>
    rw [setFirst] at h
    by_cases hr : r.userId = u ∧ r.eventId = e ∧ r.status = old
    · rw [if_pos hr] at h
      simp only [Option.some.injEq] at h
      obtain ⟨h1, h2, h3⟩ := hr
      refine ⟨[], rs, ?_, ?_⟩
      · cases r
        simp_all
      · rw [← h, h1, h2]
        rfl
    · rw [if_neg hr] at h
      cases hs : setFirst u e old new rs with
      | none => simp [hs] at h
      | some rest =>
        rw [hs] at h
        simp only [Option.map_some', Option.some.injEq] at h
        obtain ⟨a, b, h1, h2⟩ := ih rest hs
        exact ⟨r :: a, b, by simp [h1], by simp [← h, h2]⟩

theorem setFirst_none_iff (u : UserId) (e : EventId) (old new : Status) (l : Ledger) :
    setFirst u e old new l = none ↔ (⟨u, e, old⟩ : Registration) ∉ l := by
  induction l with
  | nil => simp [setFirst]
  | cons r rs ih =>
    rw [setFirst]
    by_cases hr : r.userId = u ∧ r.eventId = e ∧ r.status = old
    · rw [if_pos hr]
      obtain ⟨h1, h2, h3⟩ := hr
      have : r = ⟨u, e, old⟩ := by
        cases r
        simp_all
      simp [this]
    · rw [if_neg hr]
      have hne : (⟨u, e, old⟩ : Registration) ≠ r := by
        intro heq
        apply hr
        rw [← heq]
        exact ⟨rfl, rfl, rfl⟩
      simp [ih, hne]

theorem hasActive_iff_mem (u : UserId) (e : EventId) (l : Ledger) :
    hasActive u e l = true ↔ (⟨u, e, Status.Active⟩ : Registration) ∈ l := by
  simp only [hasActive, List.any_eq_true, isActiveFor, Bool.and_eq_true, decide_eq_true_eq]
  constructor
  · rintro ⟨r, hr, h1, h2⟩
    have : r = ⟨u, e, Status.Active⟩ := by
      cases r
      simp_all
    exact this ▸ hr
  · intro h
    exact ⟨_, h, ⟨rfl, rfl⟩, rfl⟩

theorem hasActive_iff_pos (u : UserId) (e : EventId) (l : Ledger) :
    hasActive u e l = true ↔ 0 < pairActiveCount u e l := by
  simp [hasActive, pairActiveCount, List.countP_pos_iff]

theorem isActiveFor_eq (u v : UserId) (e f : EventId) (st : Status) :
    isActiveFor u e ⟨v, f, st⟩ = (decide (v = u) && decide (f = e) && decide (st = Status.Active)) :=
  rfl

theorem isActiveAt_eq (v : UserId) (e f : EventId) (st : Status) :
    isActiveAt e ⟨v, f, st⟩ = (decide (f = e) && decide (st = Status.Active)) := rfl

theorem pairActiveCount_mid (u v : UserId) (e f : EventId) (st : Status) (a b : Ledger) :
    pairActiveCount u e (a ++ ⟨v, f, st⟩ :: b) =
      pairActiveCount u e a + pairActiveCount u e b +
        (if v = u ∧ f = e ∧ st = Status.Active then 1 else 0) := by
  simp only [pairActiveCount, List.countP_append, List.countP_cons, isActiveFor_eq]
  by_cases h1 : v = u <;> by_cases h2 : f = e <;> by_cases h3 : st = Status.Active <;>
    (simp [h1, h2, h3]; try omega)

theorem activeCount_mid (v : UserId) (e f : EventId) (st : Status) (a b : Ledger) :
    activeCount e (a ++ ⟨v, f, st⟩ :: b) =
      activeCount e a + activeCount e b + (if f = e ∧ st = Status.Active then 1 else 0) := by
  simp only [activeCount, List.countP_append, List.countP_cons, isActiveAt_eq]
  by_cases h2 : f = e <;> by_cases h3 : st = Status.Active <;> (simp [h2, h3]; try omega)

theorem pairActiveCount_snoc (u v : UserId) (e f : EventId) (st : Status) (a : Ledger) :
    pairActiveCount u e (a ++ [⟨v, f, st⟩]) =
      pairActiveCount u e a + (if v = u ∧ f = e ∧ st = Status.Active then 1 else 0) := by
  rw [pairActiveCount_mid]
  simp [pairActiveCount]

theorem activeCount_snoc (v : UserId) (e f : EventId) (st : Status) (a : Ledger) :
    activeCount e (a ++ [⟨v, f, st⟩]) =
      activeCount e a + (if f = e ∧ st = Status.Active then 1 else 0) := by
  rw [activeCount_mid]
  simp [activeCount]

theorem setFirst_effect (u : UserId) (e : EventId) (old new : Status) (l l1 : Ledger)
    (h : setFirst u e old new l = some l1) :
    (∀ v f, pairActiveCount v f l1 + (if u = v ∧ e = f ∧ old = Status.Active then 1 else 0) =
      pairActiveCount v f l + (if u = v ∧ e = f ∧ new = Status.Active then 1 else 0)) ∧
    (∀ f, activeCount f l1 + (if e = f ∧ old = Status.Active then 1 else 0) =
      activeCount f l + (if e = f ∧ new = Status.Active then 1 else 0)) ∧
    (∀ r ∈ l1, r.eventId = e ∨ r ∈ l) := by
  obtain ⟨a, b, rfl, rfl⟩ := setFirst_some u e old new l l1 h
  refine ⟨?_, ?_, ?_⟩
  · intro v f
    rw [pairActiveCount_mid, pairActiveCount_mid]
    omega
  · intro f
    rw [activeCount_mid, activeCount_mid]
    omega
  · intro r hr
    rcases List.mem_append.mp hr with h1 | h1
    · exact Or.inr (List.mem_append_left _ h1)
    · rcases List.mem_cons.mp h1 with h2 | h2
      · exact Or.inl (by rw [h2])
      · exact Or.inr (List.mem_append_right _ (List.mem_cons_of_mem _ h2))

theorem create_cases (dir : Directory) (u : UserId) (e : EventId) (l : Ledger) :
    (dir.eventExists e = false ∧ create dir u e l = (Except.error Failure.EventNotFound, l)) ∨
    (dir.eventExists e = true ∧ hasActive u e l = true ∧
      create dir u e l = (Except.error Failure.AlreadyRegistered, l)) ∨
    (dir.eventExists e = true ∧ hasActive u e l = false ∧
      hasRoom (dir.capacityOf e) (activeCount e l) = false ∧
      create dir u e l = (Except.error Failure.EventFull, l)) ∨
    (dir.eventExists e = true ∧ hasActive u e l = false ∧
      hasRoom (dir.capacityOf e) (activeCount e l) = true ∧
      (create dir u e l).1 = Except.ok ⟨u, e, Status.Active⟩ ∧
      (∀ v f, pairActiveCount v f (create dir u e l).2 =
        pairActiveCount v f l + (if u = v ∧ e = f then 1 else 0)) ∧
      (∀ f, activeCount f (create dir u e l).2 = activeCount f l + (if e = f then 1 else 0)) ∧
      (∀ r ∈ (create dir u e l).2, r.eventId = e ∨ r ∈ l)) := by
  unfold create
  by_cases h1 : dir.eventExists e = true
  · by_cases h2 : hasActive u e l = true
    · right; left
      simp [h1, h2]
    · by_cases h3 : hasRoom (dir.capacityOf e) (activeCount e l) = true
      · right; right; right
        simp only [Bool.not_eq_true] at h2
        refine ⟨h1, h2, h3, ?_⟩
        simp only [h1, h2, h3, Bool.not_true, Bool.false_eq_true, if_false]
        cases hs : setFirst u e Status.Cancelled Status.Active l with
        | some l1 =>
          obtain ⟨e1, e2, e3⟩ := setFirst_effect u e _ _ l l1 hs
          refine ⟨rfl, ?_, ?_, e3⟩
          · intro v f
            have := e1 v f
            simp only [reduceCtorEq, and_false, if_false, and_true, Nat.add_zero] at this
            exact this
          · intro f
            have := e2 f
            simp only [reduceCtorEq, and_false, if_false, and_true, Nat.add_zero] at this
            exact this
        | none =>
          refine ⟨rfl, ?_, ?_, ?_⟩
          · intro v f
            simp only [pairActiveCount_snoc, and_true]
          · intro f
            simp only [activeCount_snoc, and_true]
          · intro r hr
            rcases List.mem_append.mp hr with h | h
            · exact Or.inr h
            · simp only [List.mem_singleton] at h
              exact Or.inl (by rw [h])
      · right; right; left
        simp only [Bool.not_eq_true] at h2 h3
        simp [h1, h2, h3]
  · left
    simp only [Bool.not_eq_true] at h1
    simp [h1]

theorem cancel_cases (u : UserId) (e : EventId) (l : Ledger) :
    (hasActive u e l = false ∧ cancel u e l = (Except.error Failure.NotRegistered, l)) ∨
    (hasActive u e l = true ∧ (cancel u e l).1 = Except.ok ⟨u, e, Status.Cancelled⟩ ∧
      (∀ v f, pairActiveCount v f (cancel u e l).2 + (if u = v ∧ e = f then 1 else 0) =
        pairActiveCount v f l) ∧
      (∀ f, activeCount f (cancel u e l).2 + (if e = f then 1 else 0) = activeCount f l) ∧
      (∀ r ∈ (cancel u e l).2, r.eventId = e ∨ r ∈ l)) := by
  unfold cancel
  cases hs : setFirst u e Status.Active Status.Cancelled l with
  | none =>
    left
    refine ⟨?_, rfl⟩
    have := (setFirst_none_iff u e _ _ l).mp hs
    rw [← hasActive_iff_mem] at this
    simpa using this
  | some l1 =>
    right
    have hmem : hasActive u e l = true := by
      rw [hasActive_iff_mem]
      by_contra hn
      rw [(setFirst_none_iff u e Status.Active Status.Cancelled l).mpr hn] at hs
      exact absurd hs (by simp)
    obtain ⟨e1, e2, e3⟩ := setFirst_effect u e _ _ l l1 hs
    refine ⟨hmem, rfl, ?_, ?_, e3⟩
    · intro v f
      have := e1 v f
      simp only [reduceCtorEq, and_false, if_false, and_true, Nat.add_zero] at this
      exact this
    · intro f
      have := e2 f
      simp only [reduceCtorEq, and_false, if_false, and_true, Nat.add_zero] at this
      exact this

theorem hasActive_false_iff (u : UserId) (e : EventId) (l : Ledger) :
    hasActive u e l = false ↔ pairActiveCount u e l = 0 := by
  have := hasActive_iff_pos u e l
  cases h : hasActive u e l
  · simp only [h, Bool.false_eq_true, false_iff, true_iff] at this ⊢
    omega
  · simp only [h, true_iff, Bool.true_eq_false, false_iff] at this ⊢
    omega

theorem create_inv (dir : Directory) (u : UserId) (e : EventId) (l : Ledger)
    (h : LedgerInv dir l) : LedgerInv dir (create dir u e l).2 := by
  obtain ⟨hrows, hpair, hcap⟩ := h
  rcases create_cases dir u e l with ⟨_, hc⟩ | ⟨_, _, hc⟩ | ⟨_, _, _, hc⟩ |
    ⟨hex, hact, hroom, _, e1, e2, e3⟩
  · rw [hc]; exact ⟨hrows, hpair, hcap⟩
  · rw [hc]; exact ⟨hrows, hpair, hcap⟩
  · rw [hc]; exact ⟨hrows, hpair, hcap⟩
  · refine ⟨?_, ?_, ?_⟩
    · intro r hr
      rcases e3 r hr with h1 | h1
      · rw [h1]; exact hex
      · exact hrows r h1
    · intro v f
      rw [e1 v f]
      by_cases hvf : u = v ∧ e = f
      · obtain ⟨rfl, rfl⟩ := hvf
        have := (hasActive_false_iff u e l).mp hact
        simp [this]
      · have := hpair v f
        simp only [hvf, if_false, Nat.add_zero]
        exact this
    · intro f c hc
      rw [e2 f]
      by_cases hf : e = f
      · subst hf
        rw [hc] at hroom
        simp only [hasRoom, decide_eq_true_eq] at hroom
        simp only [if_true]
        omega
      · have := hcap f c hc
        simp only [hf, if_false, Nat.add_zero]
        exact this

theorem cancel_inv (dir : Directory) (u : UserId) (e : EventId) (l : Ledger)
    (h : LedgerInv dir l) : LedgerInv dir (cancel u e l).2 := by
  obtain ⟨hrows, hpair, hcap⟩ := h
  rcases cancel_cases u e l with ⟨_, hc⟩ | ⟨hact, _, e1, e2, e3⟩
  · rw [hc]; exact ⟨hrows, hpair, hcap⟩
  · refine ⟨?_, ?_, ?_⟩
    · intro r hr
      rcases e3 r hr with h1 | h1
      · rw [h1]
        exact hrows _ ((hasActive_iff_mem u e l).mp hact)
      · exact hrows r h1
    · intro v f
      have h1 := e1 v f
      have h2 := hpair v f
      omega
    · intro f c hc
      have h1 := e2 f
      have h2 := hcap f c hc
      omega

theorem step_inv (dir : Directory) (l : Ledger) (op : Op) (h : LedgerInv dir l) :
    LedgerInv dir (step dir l op) := by
  cases op with
  | register identity e =>
    cases identity with
    | none => exact h
    | some caller => exact create_inv dir caller.userId e l h
  | unregister identity e =>
    cases identity with
    | none => exact h
    | some caller => exact cancel_inv dir caller.userId e l h

theorem runOps_inv (dir : Directory) (ops : List Op) :
    ∀ l, LedgerInv dir l → LedgerInv dir (runOps dir ops l) := by
  induction ops with
  | nil => intro l h; exact h
  | cons op ops ih =>
    intro l h
    exact ih (step dir l op) (step_inv dir l op h)

theorem inv_nil (dir : Directory) : LedgerInv dir [] :=
  ⟨by simp, by simp [pairActiveCount], by simp [activeCount]⟩

theorem reachable_inv (dir : Directory) (ops : List Op) : LedgerInv dir (runOps dir ops []) :=
  runOps_inv dir ops [] (inv_nil dir)

/-- C3 (as amended): for an existing event of finite capacity `C` and every sequence of calls
from the empty ledger, the Active count of the event is at most `C`; a register by a caller who
has no Active registration for the event fails with EventFull and changes nothing when the
count equals `C`, and succeeds, adding one Active registration, when the count is below `C`;
an event without capacity never yields EventFull; and in the scenario with capacity 2 (users 1,
2, 3 for A, B, C and event 1 for E1) A and B succeed, C gets EventFull, A cancels, C succeeds
and 2 are Active. -/
theorem capacity_respected (dir : Directory) (ops : List Op) (e : EventId) (C : Nat)
    (hexists : dir.eventExists e = true) (hcap : dir.capacityOf e = some C) :
    activeCount e (runOps dir ops []) ≤ C ∧
    (∀ (l : Ledger) (caller : Identity), hasActive caller.userId e l = false →
      activeCount e l = C →
      Service.registerUser dir (some caller) e l = (Except.error Failure.EventFull, l)) ∧
    (∀ (l : Ledger) (caller : Identity), hasActive caller.userId e l = false →
      activeCount e l < C →
      (Service.registerUser dir (some caller) e l).1 =
          Except.ok ⟨caller.userId, e, Status.Active⟩ ∧
        activeCount e (Service.registerUser dir (some caller) e l).2 = activeCount e l + 1) ∧
    (∀ (f : EventId) (l : Ledger) (identity : Option Identity), dir.capacityOf f = none →
      (Service.registerUser dir identity f l).1 ≠ Except.error Failure.EventFull) ∧
    (Service.registerUser ⟨fun _ => true, fun _ => some 2⟩ (some ⟨1, Role.attendee⟩) 1 [] =
        (Except.ok ⟨1, 1, Status.Active⟩, [⟨1, 1, Status.Active⟩]) ∧
      Service.registerUser ⟨fun _ => true, fun _ => some 2⟩ (some ⟨2, Role.attendee⟩) 1
          [⟨1, 1, Status.Active⟩] =
        (Except.ok ⟨2, 1, Status.Active⟩, [⟨1, 1, Status.Active⟩, ⟨2, 1, Status.Active⟩]) ∧
      Service.registerUser ⟨fun _ => true, fun _ => some 2⟩ (some ⟨3, Role.attendee⟩) 1
          [⟨1, 1, Status.Active⟩, ⟨2, 1, Status.Active⟩] =
        (Except.error Failure.EventFull, [⟨1, 1, Status.Active⟩, ⟨2, 1, Status.Active⟩]) ∧
      Service.unregisterEvent (some ⟨1, Role.attendee⟩) 1
          [⟨1, 1, Status.Active⟩, ⟨2, 1, Status.Active⟩] =
        (Except.ok ⟨1, 1, Status.Cancelled⟩,
          [⟨1, 1, Status.Cancelled⟩, ⟨2, 1, Status.Active⟩]) ∧
      Service.registerUser ⟨fun _ => true, fun _ => some 2⟩ (some ⟨3, Role.attendee⟩) 1
          [⟨1, 1, Status.Cancelled⟩, ⟨2, 1, Status.Active⟩] =
        (Except.ok ⟨3, 1, Status.Active⟩,
          [⟨1, 1, Status.Cancelled⟩, ⟨2, 1, Status.Active⟩, ⟨3, 1, Status.Active⟩]) ∧
      activeCount 1 [⟨1, 1, Status.Cancelled⟩, ⟨2, 1, Status.Active⟩, ⟨3, 1, Status.Active⟩]
        = 2) := by
  refine ⟨(reachable_inv dir ops).2.2 e C hcap, ?_, ?_, ?_, by decide⟩
  · intro l caller hact hcount
    show create dir caller.userId e l = _
    rcases create_cases dir caller.userId e l with ⟨h1, _⟩ | ⟨_, h2, _⟩ | ⟨_, _, _, hc⟩ |
      ⟨_, _, hroom, _⟩
    · rw [hexists] at h1
      exact absurd h1 (by simp)
    · rw [hact] at h2
      exact absurd h2 (by simp)
    · exact hc
    · rw [hcap, hcount] at hroom
      simp [hasRoom] at hroom
  · intro l caller hact hcount
    show (create dir caller.userId e l).1 = _ ∧ activeCount e (create dir caller.userId e l).2 = _
    rcases create_cases dir caller.userId e l with ⟨h1, _⟩ | ⟨_, h2, _⟩ | ⟨_, _, hroom, _⟩ |
      ⟨_, _, _, hok, _, e2, _⟩
    · rw [hexists] at h1
      exact absurd h1 (by simp)
    · rw [hact] at h2
      exact absurd h2 (by simp)
    · rw [hcap] at hroom
      simp only [hasRoom, decide_eq_false_iff_not] at hroom
      exact absurd hcount hroom
    · exact ⟨hok, by simp [e2 e]⟩
  · intro f l identity hnone
    cases identity with
    | none => simp [Service.registerUser]
    | some caller =>
      show (create dir caller.userId f l).1 ≠ _
      rcases create_cases dir caller.userId f l with ⟨_, hc⟩ | ⟨_, _, hc⟩ | ⟨_, _, hroom, _⟩ |
        ⟨_, _, _, hok, _⟩
      · rw [hc]; simp
      · rw [hc]; simp
      · rw [hnone] at hroom
        simp [hasRoom] at hroom
      · rw [hok]; simp

/-- C3, witness: with capacity 2 for event 1, after users 1, 2, 3 register, user 1 cancels and
user 3 registers again, at most 2 registrations of event 1 are Active. -/
theorem capacity_respected_witness :
    activeCount 1 (runOps ⟨fun _ => true, fun _ => some 2⟩
      [Op.register (some ⟨1, Role.attendee⟩) 1, Op.register (some ⟨2, Role.attendee⟩) 1,
       Op.register (some ⟨3, Role.attendee⟩) 1, Op.unregister (some ⟨1, Role.attendee⟩) 1,
       Op.register (some ⟨3, Role.attendee⟩) 1] []) ≤ 2 :=
  (capacity_respected ⟨fun _ => true, fun _ => some 2⟩
    [Op.register (some ⟨1, Role.attendee⟩) 1, Op.register (some ⟨2, Role.attendee⟩) 1,
     Op.register (some ⟨3, Role.attendee⟩) 1, Op.unregister (some ⟨1, Role.attendee⟩) 1,
     Op.register (some ⟨3, Role.attendee⟩) 1] 1 2 rfl rfl).1

/-- C3, counterexample: with capacity 2 for event 1, user 1 registers; the Active count is 1,
below the capacity, yet a second register by user 1 does not succeed: it fails with
AlreadyRegistered. And once users 1 and 2 are registered and the count equals the capacity, a
register by user 1 fails with AlreadyRegistered, not EventFull. -/
theorem register_below_capacity_fails :
    activeCount 1 (runOps ⟨fun _ => true, fun _ => some 2⟩
        [Op.register (some ⟨1, Role.attendee⟩) 1] []) < 2 ∧
      Service.registerUser ⟨fun _ => true, fun _ => some 2⟩ (some ⟨1, Role.attendee⟩) 1
          (runOps ⟨fun _ => true, fun _ => some 2⟩ [Op.register (some ⟨1, Role.attendee⟩) 1] [])
        = (Except.error Failure.AlreadyRegistered, [⟨1, 1, Status.Active⟩]) ∧
      activeCount 1 (runOps ⟨fun _ => true, fun _ => some 2⟩
        [Op.register (some ⟨1, Role.attendee⟩) 1, Op.register (some ⟨2, Role.attendee⟩) 1] [])
        = 2 ∧
      Service.registerUser ⟨fun _ => true, fun _ => some 2⟩ (some ⟨1, Role.attendee⟩) 1
          (runOps ⟨fun _ => true, fun _ => some 2⟩
            [Op.register (some ⟨1, Role.attendee⟩) 1, Op.register (some ⟨2, Role.attendee⟩) 1]
            [])
        = (Except.error Failure.AlreadyRegistered,
            [⟨1, 1, Status.Active⟩, ⟨2, 1, Status.Active⟩]) := by
  decide

/-- C4: after every sequence of calls from the empty ledger a pair `(userId, eventId)` has at
most one Active registration; registering a pair that has an Active registration fails with
AlreadyRegistered, changes nothing and leaves exactly one Active row of the pair; and
cancelling it and registering again both succeed and leave exactly one Active row of the
pair. -/
theorem at_most_one_active (dir : Directory) (ops : List Op) (u : UserId) (e : EventId) :
    pairActiveCount u e (runOps dir ops []) ≤ 1 ∧
    (∀ role, hasActive u e (runOps dir ops []) = true →
      Service.registerUser dir (some ⟨u, role⟩) e (runOps dir ops []) =
          (Except.error Failure.AlreadyRegistered, runOps dir ops []) ∧
        pairActiveCount u e (runOps dir ops []) = 1) ∧
    (∀ role, hasActive u e (runOps dir ops []) = true →
      (Service.unregisterEvent (some ⟨u, role⟩) e (runOps dir ops [])).1 =
          Except.ok ⟨u, e, Status.Cancelled⟩ ∧
        (Service.registerUser dir (some ⟨u, role⟩) e
            (Service.unregisterEvent (some ⟨u, role⟩) e (runOps dir ops [])).2).1 =
          Except.ok ⟨u, e, Status.Active⟩ ∧
        pairActiveCount u e
            (Service.registerUser dir (some ⟨u, role⟩) e
              (Service.unregisterEvent (some ⟨u, role⟩) e (runOps dir ops [])).2).2 = 1) := by
  obtain ⟨hrows, hpair, hcapInv⟩ := reachable_inv dir ops
  have hex : hasActive u e (runOps dir ops []) = true → dir.eventExists e = true :=
    fun h => hrows _ ((hasActive_iff_mem u e _).mp h)
  refine ⟨hpair u e, ?_, ?_⟩
  · intro role hact
    have hone : pairActiveCount u e (runOps dir ops []) = 1 := by
      have h1 := (hasActive_iff_pos u e _).mp hact
      have h2 := hpair u e
      omega
    refine ⟨?_, hone⟩
    show create dir u e (runOps dir ops []) = _
    rcases create_cases dir u e (runOps dir ops []) with ⟨h1, _⟩ | ⟨_, _, hc⟩ |
      ⟨_, h2, _⟩ | ⟨_, h2, _⟩
    · rw [hex hact] at h1
      exact absurd h1 (by simp)
    · exact hc
    · rw [hact] at h2
      exact absurd h2 (by simp)
    · rw [hact] at h2
      exact absurd h2 (by simp)
  · intro role hact
    show (cancel u e (runOps dir ops [])).1 = _ ∧
      (create dir u e (cancel u e (runOps dir ops [])).2).1 = _ ∧
      pairActiveCount u e (create dir u e (cancel u e (runOps dir ops [])).2).2 = 1
    rcases cancel_cases u e (runOps dir ops []) with ⟨h1, _⟩ | ⟨_, hok, e1, e2, _⟩
    · rw [hact] at h1
      exact absurd h1 (by simp)
    · have hp := e1 u e
      have hc := e2 e
      have hle := hpair u e
      simp only [and_self, if_true] at hp hc
      have hzero : pairActiveCount u e (cancel u e (runOps dir ops [])).2 = 0 := by omega
      refine ⟨hok, ?_⟩
      rcases create_cases dir u e (cancel u e (runOps dir ops [])).2 with ⟨h1, _⟩ |
        ⟨_, h2, _⟩ | ⟨_, _, hroom, _⟩ | ⟨_, _, _, hok2, f1, _⟩
      · rw [hex hact] at h1
        exact absurd h1 (by simp)
      · have := (hasActive_iff_pos u e _).mp h2
        omega
      · cases hcap : dir.capacityOf e with
        | none =>
          rw [hcap] at hroom
          simp [hasRoom] at hroom
        | some c =>
          rw [hcap] at hroom
          simp only [hasRoom, decide_eq_false_iff_not] at hroom
          have := hcapInv e c hcap
          omega
      · refine ⟨hok2, ?_⟩
        rw [f1 u e, hzero]
        simp

/-- C4, witness: user 1 registers for event 1; a second register fails with AlreadyRegistered
and the pair keeps exactly one Active row. -/
theorem at_most_one_active_witness :
    hasActive 1 1 (runOps ⟨fun _ => true, fun _ => none⟩
        [Op.register (some ⟨1, Role.attendee⟩) 1] []) = true ∧
      Service.registerUser ⟨fun _ => true, fun _ => none⟩ (some ⟨1, Role.attendee⟩) 1
          (runOps ⟨fun _ => true, fun _ => none⟩ [Op.register (some ⟨1, Role.attendee⟩) 1] [])
        = (Except.error Failure.AlreadyRegistered,
            runOps ⟨fun _ => true, fun _ => none⟩ [Op.register (some ⟨1, Role.attendee⟩) 1] [])
      ∧ pairActiveCount 1 1 (runOps ⟨fun _ => true, fun _ => none⟩
          [Op.register (some ⟨1, Role.attendee⟩) 1] []) = 1 :=
  ⟨by decide,
    (at_most_one_active ⟨fun _ => true, fun _ => none⟩ [Op.register (some ⟨1, Role.attendee⟩) 1]
      1 1).2.1 Role.attendee (by decide)⟩

end EMS
